import Mathlib

/-!
Verification of the caching/reconciliation engine of `DbPointRecord.cpp`
(epanet-rtx). The orchestrator class `DbPointRecord` sits between client
code, an in-memory buffer tier (its superclass `BufferPointRecord`,
referred to as `DB_PR_SUPER` in the source) and a backing-store adapter
(`DbAdapter`). The orchestrator itself is embedded from the source file;
the buffer tier, the `TimeRange` utility and the adapter are external to
the provided sources and are modelled from the specification at their
declared interfaces. Adapter interaction is made observable by returning,
from every embedded operation, the list of data calls issued to the
adapter alongside the result and the successor state.
-/

/-- A timestamped scalar measurement. Modelled from the spec data model:
`{time, value, quality, confidence, validity}`; values and confidences are
carried opaquely (the orchestrator never computes with them), so they are
embedded as integers. -/
structure Point where
  time : Int
  value : Int
  quality : Nat
  confidence : Int
  isValid : Bool
deriving DecidableEq, Repr

/-- The invalid sentinel `Point()`: represents "no data here". -/
def Point.invalid : Point := ⟨0, 0, 0, 0, false⟩

/-- A value-constructed point `Point(time, value, quality, confidence)`,
which is valid data. -/
def Point.make (t v : Int) (q : Nat) (c : Int) : Point := ⟨t, v, q, c, true⟩

/-- The `Point::opc_rtx_override` quality marker denoting
orchestrator-overridden validity. Its numeric value plays no role. -/
def opcRtxOverride : Nat := 1

/-- Closed interval of timestamps. Modelled from the spec: `{start, end}`
with the empty/zero range `(0,0)` as the "no range" sentinel. The source
field named `end` is a Lean keyword, so it is embedded as `stop`. -/
structure TimeRange where
  start : Int
  stop : Int
deriving DecidableEq, Repr

/-- The default-constructed `TimeRange()`: the empty/zero sentinel. -/
def TimeRange.zero : TimeRange := ⟨0, 0⟩

/-- `TimeRange::contains(t)`: closed-interval membership. -/
def TimeRange.contains (r : TimeRange) (t : Int) : Bool :=
  decide (r.start ≤ t) && decide (t ≤ r.stop)

/-- `TimeRange::containsRange(other)`: both endpoints of `other` lie in
this range. -/
def TimeRange.containsRange (r o : TimeRange) : Bool :=
  r.contains o.start && r.contains o.stop

/-- The five-way intersection classification of the spec (and of the
`TimeRange::intersect_type` enum used by the source). -/
inductive IntersectType where
  | internal
  | left
  | right
  | external
  | disjoint
deriving DecidableEq, Repr

/-- Modelled from the spec (the `TimeRange` implementation is not among
the provided sources): classification of a query range `q` against a
reference range `ref`, with the definitions of spec section 4.1:
internal when `q ⊆ ref`; left-overlap when `q` starts before `ref` and
ends within it; right-overlap symmetrically; external when `ref ⊆ q`;
disjoint otherwise. Ties are resolved in the listed order. -/
def classify (ref q : TimeRange) : IntersectType :=
  if ref.start ≤ q.start ∧ q.stop ≤ ref.stop then .internal
  else if q.start < ref.start ∧ ref.start ≤ q.stop ∧ q.stop ≤ ref.stop then .left
  else if ref.start ≤ q.start ∧ q.start ≤ ref.stop ∧ ref.stop < q.stop then .right
  else if q.start ≤ ref.start ∧ ref.stop ≤ q.stop then .external
  else .disjoint

/-- `DbPointRecord::request_t`: the memoized last backing-store request. -/
structure Request where
  id : String
  range : TimeRange
deriving DecidableEq, Repr

/-- `request_t::contains(id, t)`: the memoized range covers `t` and the
identifier matches. -/
def Request.covers (r : Request) (id : String) (t : Int) : Bool :=
  r.range.contains t && (id == r.id)

/-- The quality-filter mode enum `OpcFilterType` of the source. -/
inductive OpcFilterType where
  | opcNoFilter
  | opcPassThrough
  | opcWhiteList
  | opcBlackList
  | opcCodesToValues
  | opcCodesToConfidence
deriving DecidableEq, Repr

/-- `DbAdapter` capability flags consumed by the orchestrator, per spec
section 4.3 (the adapter implementation is not among the provided
sources). -/
structure AdapterOptions where
  implementationReadonly : Bool
  supportsUnitsColumn : Bool
  canAssignUnits : Bool
  searchIteratively : Bool
  supportsSinglyBoundQuery : Bool
deriving DecidableEq, Repr

/-- Observable data calls issued by the orchestrator to the adapter. -/
inductive DbCall where
  | selectRange (id : String) (r : TimeRange)
  | insertSingle (id : String) (p : Point)
  | insertRange (id : String) (ps : List Point)
  | removeRecord (id : String)
  | assignUnitsToRecord (id : String) (u : Nat)
  | insertIdentifierAndUnits (id : String) (u : Nat)
  | idUnitsList
deriving DecidableEq, Repr

/-- `RTX_NO_UNITS`: the "no units assigned" sentinel; units are otherwise
opaque descriptors compared for equality, embedded as naturals. -/
def RTX_NO_UNITS : Nat := 0

/-- The combined state of one `DbPointRecord` instance together with its
modelled collaborators: the buffer tier contents (per identifier, kept
ordered by time), the orchestrator fields of the source class, and the
backing store reachable through the adapter (its point data and its
identifier/units registry). -/
structure DbState where
  /-- Buffer tier contents per identifier (`BufferPointRecord`). -/
  buffer : String → List Point
  /-- Buffer-tier local identifier registry. -/
  localRegistry : List (String × Nat)
  /-- `_last_request`: the memoized last backing-store request. -/
  last_request : Request
  /-- `_readOnly`: the caller-requested readonly flag. -/
  readOnlyFlag : Bool
  /-- `_filterType`. -/
  filterType : OpcFilterType
  /-- `_opcFilterCodes`. -/
  opcFilterCodes : List Nat
  /-- Whether the adapter is (or becomes, after the bounded connect
  retries of `checkConnected`) connected. -/
  connected : Bool
  /-- Backing-store point data per identifier, ordered by time. -/
  db : String → List Point
  /-- Backing-store identifier/units registry (`idUnitsList`). -/
  dbRegistry : List (String × Nat)
  /-- `_adapter->options()`. -/
  opts : AdapterOptions
  /-- `_lastIdRequest`. -/
  lastIdRequest : Int
  /-- `_identifiersAndUnitsCache`. -/
  idUnitsCache : List (String × Nat)
  /-- `iterativeSearchMaxIterations` (constructor default 8). -/
  iterativeSearchMaxIterations : Nat
  /-- `iterativeSearchStride` (constructor default 3*60*60). -/
  iterativeSearchStride : Int

/-! ### Buffer tier operations

Modelled from the spec, section 4.2: the `BufferPointRecord` superclass is
not among the provided sources. Reads are strictly from memory; writes are
idempotent upserts keyed by `(id, time)`; per-identifier contents are kept
ordered by time. -/

/-- Modelled from the spec: buffer-tier `point(id, t)` — the stored point
at exactly `t`, or the invalid sentinel. -/
def bufPoint (l : List Point) (t : Int) : Point :=
  match l.find? (fun p => p.time == t) with
  | some p => p
  | none => Point.invalid

/-- Modelled from the spec: buffer-tier `pointsInRange` — the ordered
points whose times lie in the closed range. -/
def bufPointsInRange (l : List Point) (r : TimeRange) : List Point :=
  l.filter (fun p => r.contains p.time)

/-- Modelled from the spec: upsert of one point into a time-ordered list;
a point already stored at the same time is replaced. -/
def insertPt (p : Point) : List Point → List Point
  | [] => [p]
  | x :: xs =>
    if p.time < x.time then p :: x :: xs
    else if p.time = x.time then p :: xs
    else x :: insertPt p xs

/-- Modelled from the spec: buffer-tier `addPoints` — upsert each point in
order. -/
def addPts (buf pts : List Point) : List Point :=
  pts.foldl (fun b p => insertPt p b) buf

/-- Modelled from the spec: buffer-tier `range(id)` — the span of buffered
data, or the zero sentinel when nothing is buffered. -/
def bufRange : List Point → TimeRange
  | [] => TimeRange.zero
  | p :: ps => ⟨p.time, (ps.getLastD p).time⟩

/-- Modelled from the spec: buffer-tier local registration, which succeeds
unconditionally for a well-formed name. -/
def bufRegister (reg : List (String × Nat)) (name : String) (u : Nat) :
    List (String × Nat) :=
  (name, u) :: reg.filter (fun x => !(x.1 == name))

/-! ### Adapter operations (modelled at the interface of spec section 4.3) -/

/-- Modelled from the spec: `DbAdapter::selectRange` returns the backing
points of `id` whose times lie in the closed range, in time order. -/
def DbState.selectRange (s : DbState) (id : String) (r : TimeRange) : List Point :=
  (s.db id).filter (fun p => r.contains p.time)

/-! ### The quality filter pipeline (`setOpcFilterType` closure table) -/

/-- The per-mode filter function installed by
`DbPointRecord::setOpcFilterType`: the five closures of the source, as a
pure dispatch on the mode and the configured code set. (`OpcNoFilter` is
never installed by the source — the constructor immediately selects
`OpcPassThrough` — and is embedded as the identity.) -/
def applyOpcFilter (ft : OpcFilterType) (codes : List Nat) (p : Point) : Point :=
  match ft with
  | .opcNoFilter => p
  | .opcPassThrough => p
  | .opcWhiteList =>
      if codes.contains p.quality then
        Point.make p.time p.value opcRtxOverride p.confidence
      else Point.invalid
  | .opcBlackList =>
      if codes.contains p.quality then Point.invalid
      else Point.make p.time p.value opcRtxOverride p.confidence
  | .opcCodesToValues =>
      Point.make p.time (Int.ofNat p.quality) opcRtxOverride p.confidence
  | .opcCodesToConfidence =>
      Point.make p.time p.value opcRtxOverride (Int.ofNat p.quality)

/-- `DbPointRecord::pointWithOpcFilter`. -/
def DbPointRecord.pointWithOpcFilter (s : DbState) (p : Point) : Point :=
  applyOpcFilter s.filterType s.opcFilterCodes p

/-- `DbPointRecord::pointsWithOpcFilter`: apply the filter to each point
and keep the valid results. -/
def opcFiltered (ft : OpcFilterType) (codes : List Nat) (pts : List Point) :
    List Point :=
  (pts.map (applyOpcFilter ft codes)).filter (fun p => p.isValid)

/-- `DbPointRecord::pointsWithOpcFilter` on the current state. -/
def DbPointRecord.pointsWithOpcFilter (s : DbState) (pts : List Point) : List Point :=
  opcFiltered s.filterType s.opcFilterCodes pts

/-- `BufferPointRecord::reset()` (memory cache flush), modelled from the
spec. -/
def BufferPointRecord.reset (s : DbState) : DbState :=
  { s with buffer := fun _ => [] }

/-- `DbPointRecord::setOpcFilterType`: switching the mode flushes the
buffer tier. -/
def DbPointRecord.setOpcFilterType (s : DbState) (ft : OpcFilterType) : DbState :=
  if s.filterType ≠ ft then
    { s with buffer := fun _ => [], filterType := ft }
  else s

/-! ### Readonly policy -/

/-- `DbPointRecord::readonly()`. -/
def DbPointRecord.readonly (s : DbState) : Bool :=
  s.opts.implementationReadonly || s.readOnlyFlag

/-- `DbPointRecord::setReadonly(b)`. -/
def DbPointRecord.setReadonly (s : DbState) (b : Bool) : DbState :=
  if s.opts.implementationReadonly then { s with readOnlyFlag := false }
  else { s with readOnlyFlag := b }

/-! ### Writes -/

/-- `DbPointRecord::addPoint`. -/
def DbPointRecord.addPoint (s : DbState) (id : String) (p : Point) :
    DbState × List DbCall :=
  if !DbPointRecord.readonly s && s.connected then
    ({ s with buffer := fun i => if i = id then insertPt p (s.buffer i) else s.buffer i },
     [DbCall.insertSingle id p])
  else (s, [])

/-- `DbPointRecord::addPoints`. -/
def DbPointRecord.addPoints (s : DbState) (id : String) (pts : List Point) :
    DbState × List DbCall :=
  if !DbPointRecord.readonly s && s.connected then
    ({ s with buffer := fun i => if i = id then addPts (s.buffer i) pts else s.buffer i },
     [DbCall.insertRange id pts])
  else (s, [])

/-! ### Range reconciliation -/

/-- `p.time` is first removed as a duplicate and then, when inside the
query range, kept: the deduplication-and-restriction loop at the end of
`DbPointRecord::pointsInRange`, threading the `addedTimes` set. -/
def deDup (q : TimeRange) : List Point → List Int → List Point
  | [], _ => []
  | p :: ps, seen =>
    if seen.contains p.time then deDup q ps seen
    else if q.contains p.time then p :: deDup q ps (p.time :: seen)
    else deDup q ps (p.time :: seen)

/-- Whether `_last_request` covers a whole query range for an identifier:
the double-query guard at the top of `DbPointRecord::pointsInRange`. -/
def memoCovers (s : DbState) (id : String) (q : TimeRange) : Bool :=
  s.last_request.range.containsRange q && (s.last_request.id == id)

/-- The fetch-and-merge part of `DbPointRecord::pointsInRange` (the branch
taken when neither the memoized request nor the buffer alone can answer):
classify the query against the buffered span, fetch only the gaps from the
adapter (filtered), take the rest from the buffer, concatenate
left-middle-right, then deduplicate and restrict to the query range.
Returns the result together with the adapter ranges queried. -/
def runFetch (ft : OpcFilterType) (codes : List Nat) (dbPts buf : List Point)
    (q : TimeRange) : List Point × List TimeRange :=
  let rng := bufRange buf
  match classify rng q with
  | .internal => (bufPointsInRange buf q, [])
  | .left =>
      let g : TimeRange := ⟨q.start, rng.start⟩
      let middle := opcFiltered ft codes (dbPts.filter (fun p => g.contains p.time))
      let right := bufPointsInRange buf ⟨rng.start, q.stop⟩
      (deDup q (middle ++ right) [], [g])
  | .right =>
      let g : TimeRange := ⟨rng.stop, q.stop⟩
      let left := bufPointsInRange buf ⟨q.start, rng.stop⟩
      let middle := opcFiltered ft codes (dbPts.filter (fun p => g.contains p.time))
      (deDup q (left ++ middle) [], [g])
  | .external =>
      let gl : TimeRange := ⟨q.start, rng.start⟩
      let gr : TimeRange := ⟨rng.stop, q.stop⟩
      let left := opcFiltered ft codes (dbPts.filter (fun p => gl.contains p.time))
      let middle := bufPointsInRange buf rng
      let right := opcFiltered ft codes (dbPts.filter (fun p => gr.contains p.time))
      (deDup q (left ++ middle ++ right) [], [gl, gr])
  | .disjoint =>
      (deDup q (opcFiltered ft codes (dbPts.filter (fun p => q.contains p.time))) [],
       [q])

/-- `DbPointRecord::pointsInRange`: serve from the buffer when the
memoized request covers the query (or the store is unreachable, or the
query is internal to the buffered span); otherwise fetch the gaps, merge,
deduplicate, write back into the buffer and re-memoize. -/
def DbPointRecord.pointsInRange (s : DbState) (id : String) (q : TimeRange) :
    List Point × DbState × List DbCall :=
  if memoCovers s id q then (bufPointsInRange (s.buffer id) q, s, [])
  else if !s.connected then (bufPointsInRange (s.buffer id) q, s, [])
  else if classify (bufRange (s.buffer id)) q = .internal then
    (bufPointsInRange (s.buffer id) q, s, [])
  else
    let fr := runFetch s.filterType s.opcFilterCodes (s.db id) (s.buffer id) q
    (fr.1,
     { s with
        buffer := fun i => if i = id then addPts (s.buffer i) fr.1 else s.buffer i,
        last_request := if fr.1.isEmpty then ⟨id, TimeRange.zero⟩ else ⟨id, q⟩ },
     fr.2.map (DbCall.selectRange id))

/-! ### Point lookup -/

/-- The scan loop of `DbPointRecord::point`: remember the entry at exactly
`t`, stop at the first later entry. -/
def scanForTime (t : Int) (dflt : Point) : List Point → Point
  | [] => dflt
  | x :: xs =>
    if x.time = t then scanForTime t x xs
    else if t < x.time then dflt
    else scanForTime t dflt xs

/-- `DbPointRecord::point(id, t)`: buffer first; on a miss covered by the
memoized request, invalid; otherwise fetch a symmetric 12-hour window
around `t`, filter, memoize the span of the result (or the zero sentinel
when nothing came back), write back, and extract the exact-time match. -/
def DbPointRecord.point (s : DbState) (id : String) (t : Int) :
    Point × DbState × List DbCall :=
  let p := bufPoint (s.buffer id) t
  if !s.connected then (p, s, [])
  else if p.isValid then (p, s, [])
  else if s.last_request.covers id t then (Point.invalid, s, [])
  else
    let margin : Int := 60 * 60 * 12
    let qr : TimeRange := ⟨t - margin, t + margin⟩
    let pVec := DbPointRecord.pointsWithOpcFilter s (s.selectRange id qr)
    let lr : Request :=
      match pVec with
      | [] => ⟨id, TimeRange.zero⟩
      | p0 :: rest => ⟨id, ⟨p0.time, (rest.getLastD p0).time⟩⟩
    (scanForTime t p pVec,
     { s with last_request := lr,
              buffer := fun i => if i = id then addPts (s.buffer i) pVec else s.buffer i },
     [DbCall.selectRange id qr])

/-! ### Iterative bound search -/

/-- The probe loop shared by `searchPreviousIteratively` and
`searchNextIteratively`: query the current window through
`pointsInRange`, and while the result is empty and fuel remains, slide the
window by `shift` and retry. -/
def iterLoop (id : String) (shift : Int) :
    Nat → DbState → TimeRange → List Point × DbState × List DbCall
  | 0, s, _ => ([], s, [])
  | n + 1, s, r =>
    let res := DbPointRecord.pointsInRange s id r
    if res.1.isEmpty then
      let rest := iterLoop id shift n res.2.1 ⟨r.start + shift, r.stop + shift⟩
      (rest.1, rest.2.1, res.2.2 ++ rest.2.2)
    else res

/-- `DbPointRecord::searchPreviousIteratively`: probe backwards from
`[t - stride, t - 1]`, up to `iterativeSearchMaxIterations` windows, and
return the last point of the first non-empty window. -/
def DbPointRecord.searchPreviousIteratively (s : DbState) (id : String) (t : Int) :
    Point × DbState × List DbCall :=
  if !s.connected then (Point.invalid, s, [])
  else
    let res := iterLoop id (-s.iterativeSearchStride) s.iterativeSearchMaxIterations s
      ⟨t - s.iterativeSearchStride, t - 1⟩
    (res.1.getLastD Point.invalid, res.2.1, res.2.2)

/-- `DbPointRecord::searchNextIteratively`: probe forwards from
`[t + 1, t + stride]`, up to `iterativeSearchMaxIterations` windows, and
return the first point of the first non-empty window. -/
def DbPointRecord.searchNextIteratively (s : DbState) (id : String) (t : Int) :
    Point × DbState × List DbCall :=
  if !s.connected then (Point.invalid, s, [])
  else
    let res := iterLoop id s.iterativeSearchStride s.iterativeSearchMaxIterations s
      ⟨t + 1, t + s.iterativeSearchStride⟩
    (res.1.headD Point.invalid, res.2.1, res.2.2)

/-! ### Registry -/

/-- `DbPointRecord::identifiersAndUnits()`: return the cached listing when
the previous call was less than 5 seconds ago and the cache is non-empty;
otherwise refresh from the adapter when reachable. The wall-clock reading
`time(NULL)` is passed in as `now`. -/
def DbPointRecord.identifiersAndUnits (s : DbState) (now : Int) :
    List (String × Nat) × DbState × List DbCall :=
  let stale := now - s.lastIdRequest
  if stale < 5 ∧ s.idUnitsCache ≠ [] then
    (s.idUnitsCache, { s with lastIdRequest := now }, [])
  else if s.connected then
    (s.dbRegistry, { s with lastIdRequest := now, idUnitsCache := s.dbRegistry },
     [DbCall.idUnitsList])
  else
    (s.idUnitsCache, { s with lastIdRequest := now }, [])

/-- `DbPointRecord::registerAndGetIdentifierForSeriesWithUnits`. The
source declares `existingUnits`, initializes it to `RTX_NO_UNITS`, and
never reassigns it; the embedding reproduces this. `doesHaveIdUnits` is
modelled from the spec as `(nameExists, unitsMatch)` against the registry
listing. Adapter registry writes are modelled as succeeding. -/
def DbPointRecord.registerAndGetIdentifierForSeriesWithUnits
    (s : DbState) (now : Int) (name : String) (units : Nat) :
    Bool × DbState × List DbCall :=
  if name = "" then (false, s, [])
  else if !s.connected then
    (true, { s with localRegistry := bufRegister s.localRegistry name units }, [])
  else
    let r := DbPointRecord.identifiersAndUnits s now
    let idsUnits := r.1
    let s1 := r.2.1
    let c1 := r.2.2
    let nameExists : Bool := (idsUnits.lookup name).isSome
    let unitsMatch : Bool := idsUnits.lookup name == some units
    -- the source initializes existingUnits and never reassigns it
    let existingUnits : Nat := RTX_NO_UNITS
    if DbPointRecord.readonly s1 then
      if nameExists && (unitsMatch || !s1.opts.supportsUnitsColumn) then
        (true, { s1 with localRegistry := bufRegister s1.localRegistry name units }, c1)
      else if s1.opts.canAssignUnits && (existingUnits == RTX_NO_UNITS) then
        (true, { s1 with dbRegistry := bufRegister s1.dbRegistry name units,
                         localRegistry := bufRegister s1.localRegistry name units },
         c1 ++ [DbCall.assignUnitsToRecord name units])
      else (false, s1, c1)
    else
      if nameExists && !unitsMatch then
        if existingUnits == RTX_NO_UNITS then
          if s1.opts.canAssignUnits then
            (true, { s1 with dbRegistry := bufRegister s1.dbRegistry name units },
             c1 ++ [DbCall.assignUnitsToRecord name units])
          else (false, s1, c1)
        else
          -- dead in the source: existingUnits always equals RTX_NO_UNITS
          (true, { s1 with
                     dbRegistry := s1.dbRegistry.filter (fun x => !(x.1 == name)),
                     localRegistry := bufRegister s1.localRegistry name units },
           c1 ++ [DbCall.removeRecord name])
      else if !nameExists || !unitsMatch then
        (true, { s1 with dbRegistry := bufRegister s1.dbRegistry name units,
                         localRegistry := bufRegister s1.localRegistry name units },
         c1 ++ [DbCall.insertIdentifierAndUnits name units])
      else
        (true, { s1 with localRegistry := bufRegister s1.localRegistry name units }, c1)

/-! ### Shared concrete fixtures -/

/-- A writable, connected adapter capability set. -/
def stdOpts : AdapterOptions :=
  { implementationReadonly := false
    supportsUnitsColumn := true
    canAssignUnits := true
    searchIteratively := false
    supportsSinglyBoundQuery := true }

/-- A fresh orchestrator over an empty backing store, with the constructor
defaults of the source (pass-through filter, writable, max 8 iterative
probes of 3-hour stride). -/
def emptyState : DbState :=
  { buffer := fun _ => []
    localRegistry := []
    last_request := ⟨"", TimeRange.zero⟩
    readOnlyFlag := false
    filterType := .opcPassThrough
    opcFilterCodes := []
    connected := true
    db := fun _ => []
    dbRegistry := []
    opts := stdOpts
    lastIdRequest := 0
    idUnitsCache := []
    iterativeSearchMaxIterations := 8
    iterativeSearchStride := 3 * 60 * 60 }

/-! ### Small helper lemmas -/

lemma setReadonly_opts (s : DbState) (b : Bool) :
    (DbPointRecord.setReadonly s b).opts = s.opts := by
  unfold DbPointRecord.setReadonly
  split <;> rfl

lemma foldl_setReadonly_opts (bs : List Bool) (s : DbState) :
    (bs.foldl DbPointRecord.setReadonly s).opts = s.opts := by
  induction bs generalizing s with
  | nil => rfl
  | cons b bs ih =>
    rw [List.foldl_cons, ih, setReadonly_opts]

lemma foldl_setReadonly_flag (bs : List Bool) (s : DbState)
    (h : s.opts.implementationReadonly = false) :
    (bs.foldl DbPointRecord.setReadonly s).readOnlyFlag = bs.getLastD s.readOnlyFlag := by
  induction bs generalizing s with
  | nil => rfl
  | cons b bs ih =>
    have hset : DbPointRecord.setReadonly s b = { s with readOnlyFlag := b } := by
      unfold DbPointRecord.setReadonly
      rw [h]
      simp
    rw [List.foldl_cons, hset, ih { s with readOnlyFlag := b } h, List.getLastD_cons]

lemma pointsInRange_preserves_ro (s : DbState) (id : String) (q : TimeRange) :
    ((DbPointRecord.pointsInRange s id q).2.1).opts = s.opts ∧
    ((DbPointRecord.pointsInRange s id q).2.1).readOnlyFlag = s.readOnlyFlag := by
  unfold DbPointRecord.pointsInRange
  split
  · exact ⟨rfl, rfl⟩
  · split
    · exact ⟨rfl, rfl⟩
    · split
      · exact ⟨rfl, rfl⟩
      · exact ⟨rfl, rfl⟩

lemma point_preserves_ro (s : DbState) (id : String) (t : Int) :
    ((DbPointRecord.point s id t).2.1).opts = s.opts ∧
    ((DbPointRecord.point s id t).2.1).readOnlyFlag = s.readOnlyFlag := by
  unfold DbPointRecord.point
  dsimp only
  repeat' split
  all_goals exact ⟨rfl, rfl⟩

lemma addPoint_preserves_ro (s : DbState) (id : String) (p : Point) :
    ((DbPointRecord.addPoint s id p).1).opts = s.opts ∧
    ((DbPointRecord.addPoint s id p).1).readOnlyFlag = s.readOnlyFlag := by
  unfold DbPointRecord.addPoint
  split <;> exact ⟨rfl, rfl⟩

lemma addPoints_preserves_ro (s : DbState) (id : String) (pts : List Point) :
    ((DbPointRecord.addPoints s id pts).1).opts = s.opts ∧
    ((DbPointRecord.addPoints s id pts).1).readOnlyFlag = s.readOnlyFlag := by
  unfold DbPointRecord.addPoints
  split <;> exact ⟨rfl, rfl⟩

/-! ### Claim C6 -/

/-- C6: effective readonly equals adapter-declared readonly OR the last
caller-requested value (initial flag when none was requested); an
adapter-declared readonly store cannot be overridden to writable by
`setReadonly`, and the effective-readonly value is untouched by the read
and write operations. -/
theorem C6_readonly_policy (s : DbState) (bs : List Bool) (id : String)
    (q : TimeRange) (t : Int) (p : Point) (pts : List Point) :
    DbPointRecord.readonly (bs.foldl DbPointRecord.setReadonly s)
      = (s.opts.implementationReadonly || bs.getLastD s.readOnlyFlag) ∧
    DbPointRecord.readonly ((DbPointRecord.pointsInRange s id q).2.1)
      = DbPointRecord.readonly s ∧
    DbPointRecord.readonly ((DbPointRecord.point s id t).2.1)
      = DbPointRecord.readonly s ∧
    DbPointRecord.readonly ((DbPointRecord.addPoint s id p).1)
      = DbPointRecord.readonly s ∧
    DbPointRecord.readonly ((DbPointRecord.addPoints s id pts).1)
      = DbPointRecord.readonly s := by
  refine ⟨?_, ?_, ?_, ?_, ?_⟩
  · by_cases h : s.opts.implementationReadonly = true
    · unfold DbPointRecord.readonly
      rw [foldl_setReadonly_opts, h]
      simp
    · rw [Bool.not_eq_true] at h
      unfold DbPointRecord.readonly
      rw [foldl_setReadonly_opts, foldl_setReadonly_flag bs s h, h]
  · unfold DbPointRecord.readonly
    rw [(pointsInRange_preserves_ro s id q).1, (pointsInRange_preserves_ro s id q).2]
  · unfold DbPointRecord.readonly
    rw [(point_preserves_ro s id t).1, (point_preserves_ro s id t).2]
  · unfold DbPointRecord.readonly
    rw [(addPoint_preserves_ro s id p).1, (addPoint_preserves_ro s id p).2]
  · unfold DbPointRecord.readonly
    rw [(addPoints_preserves_ro s id pts).1, (addPoints_preserves_ro s id pts).2]

/-! ### Claim C7 -/

/-- C7: `addPoint` and `addPoints` are no-ops (state untouched, zero
adapter calls) when the record is effectively readonly or the store is
unreachable; otherwise they upsert into the buffer tier and issue exactly
the matching adapter insert. -/
theorem C7_writes_guarded (s : DbState) (id : String) (p : Point) (pts : List Point) :
    (DbPointRecord.readonly s = true ∨ s.connected = false →
      DbPointRecord.addPoint s id p = (s, []) ∧
      DbPointRecord.addPoints s id pts = (s, [])) ∧
    (DbPointRecord.readonly s = false → s.connected = true →
      DbPointRecord.addPoint s id p =
        ({ s with buffer := fun i => if i = id then insertPt p (s.buffer i) else s.buffer i },
         [DbCall.insertSingle id p]) ∧
      DbPointRecord.addPoints s id pts =
        ({ s with buffer := fun i => if i = id then addPts (s.buffer i) pts else s.buffer i },
         [DbCall.insertRange id pts])) := by
  constructor
  · intro h
    have hc : (!DbPointRecord.readonly s && s.connected) = false := by
      rcases h with h | h <;> simp [h]
    constructor
    · unfold DbPointRecord.addPoint
      rw [hc]
      simp
    · unfold DbPointRecord.addPoints
      rw [hc]
      simp
  · intro h1 h2
    have hc : (!DbPointRecord.readonly s && s.connected) = true := by
      simp [h1, h2]
    constructor
    · unfold DbPointRecord.addPoint
      rw [hc]
      simp
    · unfold DbPointRecord.addPoints
      rw [hc]
      simp

/-- A readonly variant of the fresh state, for exercising the write
guard. -/
def roState : DbState := { emptyState with readOnlyFlag := true }

/-- Witness for C7: on a caller-readonly record, both write paths leave
the state untouched and issue no adapter call. -/
theorem C7_writes_guarded_witness :
    DbPointRecord.addPoint roState "A" (Point.make 5 1 0 0) = (roState, []) ∧
    DbPointRecord.addPoints roState "A" [Point.make 5 1 0 0] = (roState, []) :=
  (C7_writes_guarded roState "A" (Point.make 5 1 0 0) [Point.make 5 1 0 0]).1
    (Or.inl rfl)

/-! ### Claim C8 -/

lemma opcFiltered_whiteList (codes : List Nat) (pts : List Point) :
    opcFiltered .opcWhiteList codes pts =
      (pts.filter (fun p => codes.contains p.quality)).map
        (fun p => Point.make p.time p.value opcRtxOverride p.confidence) := by
  induction pts with
  | nil => rfl
  | cons p ps ih =>
    cases h : codes.contains p.quality with
    | true =>
      simp only [opcFiltered, List.map_cons, List.filter_cons] at ih ⊢
      rw [show applyOpcFilter .opcWhiteList codes p =
            Point.make p.time p.value opcRtxOverride p.confidence by
          unfold applyOpcFilter; rw [h]; simp]
      simp only [Point.make, h]
      simpa [Point.make] using ih
    | false =>
      simp only [opcFiltered, List.map_cons, List.filter_cons] at ih ⊢
      rw [show applyOpcFilter .opcWhiteList codes p = Point.invalid by
          unfold applyOpcFilter; rw [h]; simp]
      simp only [Point.invalid, h]
      simpa [Point.invalid] using ih

/-- C8: with the WhiteList mode and code set `codes`, the filter pipeline
keeps exactly the points whose quality code is in `codes`, preserving
time, value and confidence and replacing quality by the
orchestrator-override marker; all other points are absent from the
output. -/
theorem C8_whitelist_filter (s : DbState) (codes : List Nat) (pts : List Point)
    (hft : s.filterType = .opcWhiteList) (hcodes : s.opcFilterCodes = codes) :
    DbPointRecord.pointsWithOpcFilter s pts =
      (pts.filter (fun p => codes.contains p.quality)).map
        (fun p => Point.make p.time p.value opcRtxOverride p.confidence) := by
  unfold DbPointRecord.pointsWithOpcFilter
  rw [hft, hcodes, opcFiltered_whiteList]

/-- A record configured with the WhiteList filter and code set {0}. -/
def wlState : DbState :=
  { emptyState with filterType := .opcWhiteList, opcFilterCodes := [0] }

/-- Witness for C8: with code set {0}, a raw quality-0 point passes
through marked overridden and a quality-1 point is dropped. -/
theorem C8_whitelist_filter_witness :
    DbPointRecord.pointsWithOpcFilter wlState
        [Point.make 100 7 0 2, Point.make 200 8 1 3] =
      [Point.make 100 7 opcRtxOverride 2] := by
  rw [C8_whitelist_filter wlState [0] [Point.make 100 7 0 2, Point.make 200 8 1 3]
        rfl rfl]
  decide

/-! ### Claim C10 -/

/-- C10: `identifiersAndUnits` serves the cached registry listing with no
adapter query when the previous call was less than 5 seconds ago and the
cache is non-empty; when the cache is stale or empty and the store is
reachable it refreshes the cache from the adapter listing. -/
theorem C10_identifiersAndUnits_memo (s : DbState) (now : Int) :
    (now - s.lastIdRequest < 5 → s.idUnitsCache ≠ [] →
      DbPointRecord.identifiersAndUnits s now =
        (s.idUnitsCache, { s with lastIdRequest := now }, [])) ∧
    (¬ now - s.lastIdRequest < 5 ∨ s.idUnitsCache = [] → s.connected = true →
      DbPointRecord.identifiersAndUnits s now =
        (s.dbRegistry, { s with lastIdRequest := now, idUnitsCache := s.dbRegistry },
         [DbCall.idUnitsList])) := by
  constructor
  · intro h1 h2
    unfold DbPointRecord.identifiersAndUnits
    rw [if_pos ⟨h1, h2⟩]
  · intro h hc
    have hnot : ¬ (now - s.lastIdRequest < 5 ∧ s.idUnitsCache ≠ []) := by
      rcases h with h | h
      · exact fun hh => h hh.1
      · exact fun hh => hh.2 h
    unfold DbPointRecord.identifiersAndUnits
    rw [if_neg hnot, if_pos hc]

/-- A state with a fresh, non-empty registry cache. -/
def cachedIdsState : DbState :=
  { emptyState with lastIdRequest := 100, idUnitsCache := [("A", 5)],
                    dbRegistry := [("A", 5)] }

/-- Witness for C10: a repeat call 3 seconds after the previous one serves
the non-empty cache and issues zero adapter calls; a call 10 seconds after
the previous one refreshes from the adapter listing. -/
theorem C10_identifiersAndUnits_memo_witness :
    DbPointRecord.identifiersAndUnits cachedIdsState 103 =
      ([("A", 5)], { cachedIdsState with lastIdRequest := 103 }, []) ∧
    DbPointRecord.identifiersAndUnits cachedIdsState 110 =
      ([("A", 5)],
       { cachedIdsState with lastIdRequest := 110, idUnitsCache := [("A", 5)] },
       [DbCall.idUnitsList]) :=
  ⟨(C10_identifiersAndUnits_memo cachedIdsState 103).1 (by decide) (by decide),
   (C10_identifiersAndUnits_memo cachedIdsState 110).2 (Or.inl (by decide)) rfl⟩

/-! ### List machinery for the range-reconciliation proofs -/

/-- Strictly increasing timestamps: the order invariant of per-identifier
point lists (buffer tier contents and backing-store data). -/
abbrev PtSortedLt (l : List Point) : Prop := l.Pairwise fun a b => a.time < b.time

/-- Non-decreasing timestamps, for concatenations of adjacent segments. -/
abbrev PtSortedLe (l : List Point) : Prop := l.Pairwise fun a b => a.time ≤ b.time

instance : IsAntisymm Point (fun a b : Point => a.time < b.time) :=
  ⟨fun _ _ h h2 => absurd (lt_trans h h2) (lt_irrefl _)⟩

lemma PtSortedLt.toLe {l : List Point} (h : PtSortedLt l) : PtSortedLe l :=
  h.imp le_of_lt

lemma PtSortedLt.timesNe {l : List Point} (h : PtSortedLt l) :
    l.Pairwise fun a b => a.time ≠ b.time :=
  h.imp ne_of_lt

lemma PtSortedLt.nodup {l : List Point} (h : PtSortedLt l) : l.Nodup :=
  h.imp fun hab => by
    intro he
    subst he
    exact lt_irrefl _ hab

lemma contains_true_iff (r : TimeRange) (t : Int) :
    r.contains t = true ↔ r.start ≤ t ∧ t ≤ r.stop := by
  simp [TimeRange.contains]

lemma listContains_iff {l : List Int} {a : Int} : l.contains a = true ↔ a ∈ l := by
  simp

lemma containsRange_true_iff (r o : TimeRange) :
    r.containsRange o = true ↔
      (r.start ≤ o.start ∧ o.start ≤ r.stop) ∧ (r.start ≤ o.stop ∧ o.stop ≤ r.stop) := by
  simp [TimeRange.containsRange, contains_true_iff]

lemma bufPointsInRange_sorted {l : List Point} (h : PtSortedLt l) (r : TimeRange) :
    PtSortedLt (bufPointsInRange l r) :=
  h.sublist (List.filter_sublist l)

lemma mem_bufPointsInRange {l : List Point} {r : TimeRange} {x : Point} :
    x ∈ bufPointsInRange l r ↔ x ∈ l ∧ (r.start ≤ x.time ∧ x.time ≤ r.stop) := by
  simp [bufPointsInRange, List.mem_filter, contains_true_iff]

/-! #### Deduplication loop -/

lemma mem_deDup {q : TimeRange} {l : List Point} {seen : List Int} {x : Point}
    (hx : x ∈ deDup q l seen) :
    x ∈ l ∧ q.contains x.time = true ∧ x.time ∉ seen := by
  induction l generalizing seen with
  | nil => simp [deDup] at hx
  | cons p ps ih =>
    unfold deDup at hx
    by_cases h1 : seen.contains p.time = true
    · rw [if_pos h1] at hx
      have := ih hx
      exact ⟨List.mem_cons_of_mem p this.1, this.2.1, this.2.2⟩
    · rw [if_neg h1] at hx
      by_cases h2 : q.contains p.time = true
      · rw [if_pos h2] at hx
        rcases List.mem_cons.mp hx with he | hm
        · subst he
          refine ⟨List.mem_cons_self _ _, h2, ?_⟩
          simpa using h1
        · have := ih hm
          refine ⟨List.mem_cons_of_mem p this.1, this.2.1, ?_⟩
          have hnot := this.2.2
          simp only [List.mem_cons] at hnot
          exact fun hmem => hnot (Or.inr hmem)
      · rw [if_neg h2] at hx
        have := ih hx
        refine ⟨List.mem_cons_of_mem p this.1, this.2.1, ?_⟩
        have hnot := this.2.2
        simp only [List.mem_cons] at hnot
        exact fun hmem => hnot (Or.inr hmem)

lemma deDup_time_mem {q : TimeRange} {l : List Point} {seen : List Int} {p : Point}
    (hp : p ∈ l) (hall : ∀ y ∈ l, q.contains y.time = true)
    (hseen : p.time ∉ seen) :
    ∃ z ∈ deDup q l seen, z.time = p.time := by
  induction l generalizing seen with
  | nil => simp at hp
  | cons x xs ih =>
    unfold deDup
    by_cases h1 : seen.contains x.time = true
    · rw [if_pos h1]
      rcases List.mem_cons.mp hp with he | hm
      · subst he
        exact absurd (by simpa using h1) hseen
      · exact ih hm (fun y hy => hall y (List.mem_cons_of_mem x hy)) hseen
    · have hx : q.contains x.time = true := hall x (List.mem_cons_self x xs)
      rw [if_neg h1, if_pos hx]
      by_cases he : p.time = x.time
      · exact ⟨x, List.mem_cons_self _ _, he.symm⟩
      · rcases List.mem_cons.mp hp with hpe | hm
        · subst hpe
          exact absurd rfl he
        · have hseen2 : p.time ∉ x.time :: seen := by
            simp only [List.mem_cons]
            exact fun h => h.elim he hseen
          rcases ih hm (fun y hy => hall y (List.mem_cons_of_mem x hy)) hseen2 with
            ⟨z, hz, hzt⟩
          exact ⟨z, List.mem_cons_of_mem x hz, hzt⟩

lemma deDup_sorted {q : TimeRange} {l : List Point} {seen : List Int}
    (h : PtSortedLe l) : PtSortedLt (deDup q l seen) := by
  induction l generalizing seen with
  | nil => simp [deDup]
  | cons p ps ih =>
    rcases List.pairwise_cons.mp h with ⟨hhead, htail⟩
    unfold deDup
    by_cases h1 : seen.contains p.time = true
    · rw [if_pos h1]
      exact ih htail
    · rw [if_neg h1]
      by_cases h2 : q.contains p.time = true
      · rw [if_pos h2]
        refine List.pairwise_cons.mpr ⟨?_, ih htail⟩
        intro y hy
        have hmem := mem_deDup hy
        have hle := hhead y hmem.1
        have hne : y.time ≠ p.time := by
          have := hmem.2.2
          simp only [List.mem_cons] at this
          exact fun he => this (Or.inl he)
        exact lt_of_le_of_ne hle (fun he => hne he.symm)
      · rw [if_neg h2]
        exact ih htail

lemma deDup_eq_self {q : TimeRange} {l : List Point} {seen : List Int}
    (hall : ∀ y ∈ l, q.contains y.time = true)
    (hnd : l.Pairwise fun a b => a.time ≠ b.time)
    (hseen : ∀ y ∈ l, y.time ∉ seen) :
    deDup q l seen = l := by
  induction l generalizing seen with
  | nil => rfl
  | cons p ps ih =>
    rcases List.pairwise_cons.mp hnd with ⟨hhead, htail⟩
    unfold deDup
    have h1 : ¬ seen.contains p.time = true := by
      rw [listContains_iff]
      exact hseen p (List.mem_cons_self _ _)
    rw [if_neg h1, if_pos (hall p (List.mem_cons_self _ _))]
    congr 1
    refine ih (fun y hy => hall y (List.mem_cons_of_mem p hy)) htail ?_
    intro y hy
    simp only [List.mem_cons]
    rintro (he | hm)
    · exact hhead y hy he.symm
    · exact hseen y (List.mem_cons_of_mem p hy) hm

/-! #### Buffer upsert -/

lemma mem_insertPt_weak {p : Point} {l : List Point} {y : Point}
    (h : y ∈ insertPt p l) : y = p ∨ y ∈ l := by
  induction l with
  | nil => simpa [insertPt] using h
  | cons x xs ih =>
    unfold insertPt at h
    split at h
    · rcases List.mem_cons.mp h with he | hm
      · exact Or.inl he
      · exact Or.inr hm
    · split at h
      · rcases List.mem_cons.mp h with he | hm
        · exact Or.inl he
        · exact Or.inr (List.mem_cons_of_mem x hm)
      · rcases List.mem_cons.mp h with he | hm
        · exact Or.inr (he ▸ List.mem_cons_self x xs)
        · rcases ih hm with h2 | h2
          · exact Or.inl h2
          · exact Or.inr (List.mem_cons_of_mem x h2)

lemma insertPt_sorted {p : Point} {l : List Point} (h : PtSortedLt l) :
    PtSortedLt (insertPt p l) := by
  induction l with
  | nil => simp [insertPt]
  | cons x xs ih =>
    rcases List.pairwise_cons.mp h with ⟨hhead, htail⟩
    unfold insertPt
    split
    · rename_i hlt
      refine List.pairwise_cons.mpr ⟨?_, h⟩
      intro y hy
      rcases List.mem_cons.mp hy with he | hm
      · exact he ▸ hlt
      · exact lt_trans hlt (hhead y hm)
    · split
      · rename_i hne heq
        refine List.pairwise_cons.mpr ⟨?_, htail⟩
        intro y hy
        exact heq ▸ hhead y hy
      · rename_i hne1 hne2
        have hgt : x.time < p.time :=
          lt_of_le_of_ne (le_of_not_lt hne1) (fun he => hne2 he.symm)
        refine List.pairwise_cons.mpr ⟨?_, ih htail⟩
        intro y hy
        rcases mem_insertPt_weak hy with he | hm
        · exact he ▸ hgt
        · exact hhead y hm

lemma mem_insertPt {p : Point} {l : List Point} (hs : PtSortedLt l) {y : Point} :
    y ∈ insertPt p l ↔ y = p ∨ (y ∈ l ∧ y.time ≠ p.time) := by
  induction l with
  | nil => simp [insertPt]
  | cons x xs ih =>
    rcases List.pairwise_cons.mp hs with ⟨hhead, htail⟩
    unfold insertPt
    split
    · rename_i hlt
      constructor
      · intro hy
        rcases List.mem_cons.mp hy with he | hm
        · exact Or.inl he
        · refine Or.inr ⟨hm, ?_⟩
          rcases List.mem_cons.mp hm with he2 | hm2
          · exact he2 ▸ ne_of_gt hlt
          · exact ne_of_gt (lt_trans hlt (hhead y hm2))
      · rintro (he | ⟨hm, _⟩)
        · exact he ▸ List.mem_cons_self _ _
        · exact List.mem_cons_of_mem p hm
    · split
      · rename_i hne heq
        constructor
        · intro hy
          rcases List.mem_cons.mp hy with he | hm
          · exact Or.inl he
          · refine Or.inr ⟨List.mem_cons_of_mem x hm, ?_⟩
            rw [heq]
            exact ne_of_gt (hhead y hm)
        · rintro (he | ⟨hm, hne2⟩)
          · exact he ▸ List.mem_cons_self _ _
          · rcases List.mem_cons.mp hm with he2 | hm2
            · exact absurd (show y.time = p.time by rw [he2, ← heq]) hne2
            · exact List.mem_cons_of_mem p hm2
      · rename_i hne1 hne2
        have hgt : x.time < p.time :=
          lt_of_le_of_ne (le_of_not_lt hne1) (fun he => hne2 he.symm)
        constructor
        · intro hy
          rcases List.mem_cons.mp hy with he | hm
          · exact Or.inr ⟨he ▸ List.mem_cons_self _ _, he ▸ ne_of_lt hgt⟩
          · rcases (ih htail).mp hm with h2 | ⟨h2, h3⟩
            · exact Or.inl h2
            · exact Or.inr ⟨List.mem_cons_of_mem x h2, h3⟩
        · rintro (he | ⟨hm, hne3⟩)
          · exact List.mem_cons_of_mem x ((ih htail).mpr (Or.inl he))
          · rcases List.mem_cons.mp hm with he2 | hm2
            · exact he2 ▸ List.mem_cons_self _ _
            · exact List.mem_cons_of_mem x ((ih htail).mpr (Or.inr ⟨hm2, hne3⟩))

lemma addPts_sorted {buf pts : List Point} (hb : PtSortedLt buf) :
    PtSortedLt (addPts buf pts) := by
  induction pts generalizing buf with
  | nil => exact hb
  | cons p ps ih => exact ih (insertPt_sorted hb)

lemma mem_addPts {buf pts : List Point} (hb : PtSortedLt buf)
    (hnd : pts.Pairwise fun a b => a.time ≠ b.time) {y : Point} :
    y ∈ addPts buf pts ↔ y ∈ pts ∨ (y ∈ buf ∧ ∀ z ∈ pts, y.time ≠ z.time) := by
  induction pts generalizing buf with
  | nil => simp [addPts]
  | cons p ps ih =>
    rcases List.pairwise_cons.mp hnd with ⟨hp, hnd2⟩
    have hstep : addPts buf (p :: ps) = addPts (insertPt p buf) ps := rfl
    rw [hstep, ih (insertPt_sorted hb) hnd2]
    constructor
    · rintro (hm | ⟨hm, hall⟩)
      · exact Or.inl (List.mem_cons_of_mem p hm)
      · rcases (mem_insertPt hb).mp hm with he | ⟨hm2, hne⟩
        · exact Or.inl (he ▸ List.mem_cons_self _ _)
        · refine Or.inr ⟨hm2, ?_⟩
          intro z hz
          rcases List.mem_cons.mp hz with he2 | hm3
          · exact he2 ▸ hne
          · exact hall z hm3
    · rintro (hm | ⟨hm, hall⟩)
      · rcases List.mem_cons.mp hm with he | hm2
        · refine Or.inr ⟨(mem_insertPt hb).mpr (Or.inl he), ?_⟩
          intro z hz
          exact he ▸ hp z hz
        · exact Or.inl hm2
      · refine Or.inr ⟨(mem_insertPt hb).mpr
          (Or.inr ⟨hm, hall p (List.mem_cons_self _ _)⟩), ?_⟩
        intro z hz
        exact hall z (List.mem_cons_of_mem p hz)

/-- The write-back identity: after upserting a result list `R` that is
sorted, lies inside the query range, and covers every in-range timestamp
the buffer already had, filtering the updated buffer to the query range
reproduces exactly `R`. -/
lemma filter_addPts_eq {buf R : List Point} {q : TimeRange}
    (hb : PtSortedLt buf) (hR : PtSortedLt R)
    (hRin : ∀ p ∈ R, q.contains p.time = true)
    (hcov : ∀ b ∈ buf, q.contains b.time = true → ∃ z ∈ R, z.time = b.time) :
    bufPointsInRange (addPts buf R) q = R := by
  have hsorted1 : PtSortedLt (bufPointsInRange (addPts buf R) q) :=
    bufPointsInRange_sorted (addPts_sorted hb) q
  have hmemiff : ∀ x, x ∈ bufPointsInRange (addPts buf R) q ↔ x ∈ R := by
    intro x
    constructor
    · intro hx
      rcases (List.mem_filter).mp hx with ⟨hmem, hin⟩
      rcases (mem_addPts hb hR.timesNe).mp hmem with hmR | ⟨hmb, hall⟩
      · exact hmR
      · rcases hcov x hmb hin with ⟨z, hz, hzt⟩
        exact absurd hzt.symm (hall z hz)
    · intro hx
      refine (List.mem_filter).mpr ⟨?_, hRin x hx⟩
      exact (mem_addPts hb hR.timesNe).mpr (Or.inl hx)
  exact List.eq_of_perm_of_sorted
    ((List.perm_ext_iff_of_nodup hsorted1.nodup hR.nodup).mpr hmemiff)
    hsorted1 hR

/-! #### Buffered span bounds -/

lemma sorted_le_getLastD {l : List Point} {p : Point} (h : PtSortedLe (p :: l)) :
    ∀ b ∈ p :: l, b.time ≤ (l.getLastD p).time := by
  induction l generalizing p with
  | nil =>
    intro b hb
    rcases List.mem_cons.mp hb with he | hm
    · exact he ▸ le_refl _
    · simp at hm
  | cons x xs ih =>
    intro b hb
    rcases List.pairwise_cons.mp h with ⟨hhead, htail⟩
    rw [List.getLastD_cons]
    rcases List.mem_cons.mp hb with he | hm
    · subst he
      exact le_trans (hhead x (List.mem_cons_self _ _))
        (ih htail x (List.mem_cons_self _ _))
    · exact ih htail b hm

lemma bufRange_bounds {l : List Point} (h : PtSortedLt l) {b : Point} (hb : b ∈ l) :
    (bufRange l).start ≤ b.time ∧ b.time ≤ (bufRange l).stop := by
  cases l with
  | nil => simp at hb
  | cons p ps =>
    rcases List.pairwise_cons.mp h with ⟨hhead, _⟩
    constructor
    · rcases List.mem_cons.mp hb with he | hm
      · exact he ▸ le_refl _
      · exact le_of_lt (hhead b hm)
    · exact sorted_le_getLastD h.toLe b hb

lemma bufRange_valid {l : List Point} (h : PtSortedLt l) :
    (bufRange l).start ≤ (bufRange l).stop := by
  cases l with
  | nil => exact le_refl _
  | cons p ps => exact sorted_le_getLastD h.toLe p (List.mem_cons_self _ _)

/-! #### Classification inversion -/

lemma classify_left_facts {ref q : TimeRange} (h : classify ref q = .left) :
    q.start < ref.start ∧ ref.start ≤ q.stop ∧ q.stop ≤ ref.stop := by
  unfold classify at h
  split_ifs at h with h1 h2 h3 h4
  all_goals first | exact h2 | simp at h

lemma classify_right_facts {ref q : TimeRange} (h : classify ref q = .right) :
    ref.start ≤ q.start ∧ q.start ≤ ref.stop ∧ ref.stop < q.stop := by
  unfold classify at h
  split_ifs at h with h1 h2 h3 h4
  all_goals first | exact h3 | simp at h

lemma classify_external_facts {ref q : TimeRange} (h : classify ref q = .external) :
    q.start ≤ ref.start ∧ ref.stop ≤ q.stop := by
  unfold classify at h
  split_ifs at h with h1 h2 h3 h4
  all_goals first | exact h4 | simp at h

lemma classify_disjoint_facts {ref q : TimeRange} (h : classify ref q = .disjoint) :
    ¬(ref.start ≤ q.start ∧ q.stop ≤ ref.stop) ∧
    ¬(q.start < ref.start ∧ ref.start ≤ q.stop ∧ q.stop ≤ ref.stop) ∧
    ¬(ref.start ≤ q.start ∧ q.start ≤ ref.stop ∧ ref.stop < q.stop) ∧
    ¬(q.start ≤ ref.start ∧ ref.stop ≤ q.stop) := by
  unfold classify at h
  split_ifs at h with h1 h2 h3 h4
  all_goals first | exact ⟨h1, h2, h3, h4⟩ | simp at h

lemma disjoint_no_point {ref q : TimeRange} (h : classify ref q = .disjoint)
    (hrv : ref.start ≤ ref.stop) (hqv : q.start ≤ q.stop) {t : Int}
    (h1 : q.start ≤ t) (h2 : t ≤ q.stop) (h3 : ref.start ≤ t) (h4 : t ≤ ref.stop) :
    False := by
  rcases classify_disjoint_facts h with ⟨hc1, hc2, hc3, hc4⟩
  omega

/-! #### Quality filter pipeline facts -/

lemma applyOpcFilter_time {ft : OpcFilterType} {codes : List Nat} {p : Point}
    (h : (applyOpcFilter ft codes p).isValid = true) :
    (applyOpcFilter ft codes p).time = p.time := by
  cases ft with
  | opcNoFilter => rfl
  | opcPassThrough => rfl
  | opcWhiteList =>
    unfold applyOpcFilter at h ⊢
    cases hc : codes.contains p.quality with
    | true => simp [Point.make]
    | false =>
      rw [hc] at h
      simp [Point.invalid] at h
  | opcBlackList =>
    unfold applyOpcFilter at h ⊢
    cases hc : codes.contains p.quality with
    | true =>
      rw [hc] at h
      simp [Point.invalid] at h
    | false => simp [Point.make]
  | opcCodesToValues => rfl
  | opcCodesToConfidence => rfl

lemma mem_opcFiltered {ft : OpcFilterType} {codes : List Nat} {pts : List Point}
    {x : Point} :
    x ∈ opcFiltered ft codes pts ↔
      (∃ y ∈ pts, applyOpcFilter ft codes y = x) ∧ x.isValid = true := by
  constructor
  · intro hx
    rcases List.mem_filter.mp hx with ⟨hmem, hval⟩
    rcases List.mem_map.mp hmem with ⟨y, hy, hfy⟩
    exact ⟨⟨y, hy, hfy⟩, hval⟩
  · rintro ⟨⟨y, hy, hfy⟩, hval⟩
    exact List.mem_filter.mpr ⟨List.mem_map.mpr ⟨y, hy, hfy⟩, hval⟩

lemma opcFiltered_time_mem {ft : OpcFilterType} {codes : List Nat} {pts : List Point}
    {x : Point} (hx : x ∈ opcFiltered ft codes pts) :
    ∃ y ∈ pts, x.time = y.time := by
  rcases mem_opcFiltered.mp hx with ⟨⟨y, hy, hfy⟩, hval⟩
  refine ⟨y, hy, ?_⟩
  rw [← hfy]
  exact applyOpcFilter_time (by rw [hfy]; exact hval)

lemma opcFiltered_sorted {ft : OpcFilterType} {codes : List Nat} {pts : List Point}
    (h : PtSortedLt pts) : PtSortedLt (opcFiltered ft codes pts) := by
  induction pts with
  | nil => simp [opcFiltered]
  | cons p ps ih =>
    rcases List.pairwise_cons.mp h with ⟨hhead, htail⟩
    unfold opcFiltered
    simp only [List.map_cons, List.filter_cons]
    split
    · rename_i hval
      refine List.pairwise_cons.mpr ⟨?_, ih htail⟩
      intro y hy
      have hy2 : y ∈ opcFiltered ft codes ps := hy
      rcases opcFiltered_time_mem hy2 with ⟨z, hz, hzt⟩
      rw [applyOpcFilter_time hval, hzt]
      exact hhead z hz
    · exact ih htail

lemma opcFiltered_in_range {ft : OpcFilterType} {codes : List Nat} {r : TimeRange}
    {pts : List Point} (h : ∀ p ∈ pts, r.contains p.time = true) :
    ∀ x ∈ opcFiltered ft codes pts, r.contains x.time = true := by
  intro x hx
  rcases opcFiltered_time_mem hx with ⟨y, hy, hxy⟩
  rw [contains_true_iff, hxy, ← contains_true_iff]
  exact h y hy

lemma filter_range_sorted {dbPts : List Point} (hd : PtSortedLt dbPts)
    (g : TimeRange) : PtSortedLt (dbPts.filter (fun p => g.contains p.time)) :=
  hd.sublist (List.filter_sublist dbPts)

lemma filter_range_mem {dbPts : List Point} {g : TimeRange} :
    ∀ p ∈ dbPts.filter (fun p => g.contains p.time),
      g.start ≤ p.time ∧ p.time ≤ g.stop := by
  intro p hp
  exact (contains_true_iff g p.time).mp (List.mem_filter.mp hp).2

/-- Packaging of the deduplication-loop consequences used below: from a
merged list that is time-ordered, lies inside the query range, and holds
every in-range buffered point, the deduplicated result is strictly
ordered, in-range, and still covers every in-range buffered timestamp. -/
lemma deDup_conclusion {q : TimeRange} {merged buf : List Point}
    (hall : ∀ x ∈ merged, q.contains x.time = true)
    (hsorted : PtSortedLe merged)
    (hcov : ∀ b ∈ buf, q.contains b.time = true → b ∈ merged) :
    PtSortedLt (deDup q merged []) ∧
    (∀ p ∈ deDup q merged [], q.contains p.time = true) ∧
    (∀ b ∈ buf, q.contains b.time = true →
      ∃ z ∈ deDup q merged [], z.time = b.time) := by
  refine ⟨deDup_sorted hsorted, fun p hp => (mem_deDup hp).2.1, ?_⟩
  intro b hbm hbq
  exact deDup_time_mem (hcov b hbm hbq) hall (by simp)

/-- The gap-fetch-and-merge branch of `pointsInRange` produces a strictly
time-ordered result lying inside the query range that covers every
in-range timestamp the buffer already held. -/
lemma runFetch_props {ft : OpcFilterType} {codes : List Nat} {dbPts buf : List Point}
    {q : TimeRange} (hb : PtSortedLt buf) (hd : PtSortedLt dbPts)
    (hq : q.start ≤ q.stop) (hni : classify (bufRange buf) q ≠ .internal) :
    PtSortedLt (runFetch ft codes dbPts buf q).1 ∧
    (∀ p ∈ (runFetch ft codes dbPts buf q).1, q.contains p.time = true) ∧
    (∀ b ∈ buf, q.contains b.time = true →
      ∃ z ∈ (runFetch ft codes dbPts buf q).1, z.time = b.time) := by
  have hrv : (bufRange buf).start ≤ (bufRange buf).stop := bufRange_valid hb
  unfold runFetch
  dsimp only
  cases hcls : classify (bufRange buf) q with
  | internal => exact absurd hcls hni
  | left =>
    rcases classify_left_facts hcls with ⟨hl1, hl2, hl3⟩
    dsimp only
    refine deDup_conclusion ?_ ?_ ?_
    · intro x hx
      rcases List.mem_append.mp hx with hm | hr
      · refine (contains_true_iff q x.time).mpr ?_
        have := opcFiltered_in_range
          (r := ⟨q.start, (bufRange buf).start⟩)
          (fun p hp => (List.mem_filter.mp hp).2) x hm
        rcases (contains_true_iff _ _).mp this with ⟨ha, hbnd⟩
        exact ⟨ha, le_trans hbnd hl2⟩
      · rcases mem_bufPointsInRange.mp hr with ⟨_, h1, h2⟩
        exact (contains_true_iff q x.time).mpr ⟨le_trans (le_of_lt hl1) h1, h2⟩
    · refine List.pairwise_append.mpr
        ⟨(opcFiltered_sorted (filter_range_sorted hd _)).toLe,
         (bufPointsInRange_sorted hb _).toLe, ?_⟩
      intro a ha b hbm
      have hua := opcFiltered_in_range
        (r := ⟨q.start, (bufRange buf).start⟩)
        (fun p hp => (List.mem_filter.mp hp).2) a ha
      have h1 : a.time ≤ (bufRange buf).start := ((contains_true_iff _ _).mp hua).2
      have h2 : (bufRange buf).start ≤ b.time := (mem_bufPointsInRange.mp hbm).2.1
      exact le_trans h1 h2
    · intro b hbm hbq
      refine List.mem_append_right _ (mem_bufPointsInRange.mpr
        ⟨hbm, (bufRange_bounds hb hbm).1, ((contains_true_iff _ _).mp hbq).2⟩)
  | right =>
    rcases classify_right_facts hcls with ⟨hr1, hr2, hr3⟩
    dsimp only
    refine deDup_conclusion ?_ ?_ ?_
    · intro x hx
      rcases List.mem_append.mp hx with hl | hm
      · rcases mem_bufPointsInRange.mp hl with ⟨_, h1, h2⟩
        exact (contains_true_iff q x.time).mpr ⟨h1, le_trans h2 (le_of_lt hr3)⟩
      · have := opcFiltered_in_range
          (r := ⟨(bufRange buf).stop, q.stop⟩)
          (fun p hp => (List.mem_filter.mp hp).2) x hm
        rcases (contains_true_iff _ _).mp this with ⟨h1, h2⟩
        exact (contains_true_iff q x.time).mpr ⟨le_trans hr2 h1, h2⟩
    · refine List.pairwise_append.mpr
        ⟨(bufPointsInRange_sorted hb _).toLe,
         (opcFiltered_sorted (filter_range_sorted hd _)).toLe, ?_⟩
      intro a ha b hbm
      have h1 : a.time ≤ (bufRange buf).stop := (mem_bufPointsInRange.mp ha).2.2
      have hub := opcFiltered_in_range
        (r := ⟨(bufRange buf).stop, q.stop⟩)
        (fun p hp => (List.mem_filter.mp hp).2) b hbm
      have h2 : (bufRange buf).stop ≤ b.time := ((contains_true_iff _ _).mp hub).1
      exact le_trans h1 h2
    · intro b hbm hbq
      refine List.mem_append_left _ (mem_bufPointsInRange.mpr
        ⟨hbm, ((contains_true_iff _ _).mp hbq).1, (bufRange_bounds hb hbm).2⟩)
  | external =>
    rcases classify_external_facts hcls with ⟨he1, he2⟩
    dsimp only
    refine deDup_conclusion ?_ ?_ ?_
    · intro x hx
      rcases List.mem_append.mp hx with hlm | hr
      · rcases List.mem_append.mp hlm with hl | hm
        · have := opcFiltered_in_range
            (r := ⟨q.start, (bufRange buf).start⟩)
            (fun p hp => (List.mem_filter.mp hp).2) x hl
          rcases (contains_true_iff _ _).mp this with ⟨h1, h2⟩
          exact (contains_true_iff q x.time).mpr
            ⟨h1, le_trans h2 (le_trans hrv he2)⟩
        · rcases mem_bufPointsInRange.mp hm with ⟨_, h1, h2⟩
          exact (contains_true_iff q x.time).mpr
            ⟨le_trans he1 h1, le_trans h2 he2⟩
      · have := opcFiltered_in_range
          (r := ⟨(bufRange buf).stop, q.stop⟩)
          (fun p hp => (List.mem_filter.mp hp).2) x hr
        rcases (contains_true_iff _ _).mp this with ⟨h1, h2⟩
        exact (contains_true_iff q x.time).mpr
          ⟨le_trans he1 (le_trans hrv h1), h2⟩
    · refine List.pairwise_append.mpr
        ⟨?_, (opcFiltered_sorted (filter_range_sorted hd _)).toLe, ?_⟩
      · refine List.pairwise_append.mpr
          ⟨(opcFiltered_sorted (filter_range_sorted hd _)).toLe,
           (bufPointsInRange_sorted hb _).toLe, ?_⟩
        intro a ha b hbm
        have hua := opcFiltered_in_range
          (r := ⟨q.start, (bufRange buf).start⟩)
          (fun p hp => (List.mem_filter.mp hp).2) a ha
        have h1 : a.time ≤ (bufRange buf).start := ((contains_true_iff _ _).mp hua).2
        exact le_trans h1 (mem_bufPointsInRange.mp hbm).2.1
      · intro a ha b hbm
        have hub := opcFiltered_in_range
          (r := ⟨(bufRange buf).stop, q.stop⟩)
          (fun p hp => (List.mem_filter.mp hp).2) b hbm
        have h2 : (bufRange buf).stop ≤ b.time := ((contains_true_iff _ _).mp hub).1
        rcases List.mem_append.mp ha with hl | hm
        · have hua := opcFiltered_in_range
            (r := ⟨q.start, (bufRange buf).start⟩)
            (fun p hp => (List.mem_filter.mp hp).2) a hl
          have h1 : a.time ≤ (bufRange buf).start := ((contains_true_iff _ _).mp hua).2
          exact le_trans h1 (le_trans hrv h2)
        · exact le_trans (mem_bufPointsInRange.mp hm).2.2 h2
    · intro b hbm hbq
      refine List.mem_append_left _ (List.mem_append_right _
        (mem_bufPointsInRange.mpr
          ⟨hbm, (bufRange_bounds hb hbm).1, (bufRange_bounds hb hbm).2⟩))
  | disjoint =>
    dsimp only
    refine deDup_conclusion ?_ ?_ ?_
    · intro x hx
      exact opcFiltered_in_range (r := q)
        (fun p hp => (List.mem_filter.mp hp).2) x hx
    · exact (opcFiltered_sorted (filter_range_sorted hd _)).toLe
    · intro b hbm hbq
      exfalso
      rcases (contains_true_iff _ _).mp hbq with ⟨h1, h2⟩
      rcases bufRange_bounds hb hbm with ⟨h3, h4⟩
      exact disjoint_no_point hcls hrv hq h1 h2 h3 h4

/-- When the memoized request covers the query, or the store is
unreachable, or the query is internal to the buffered span, the orchestrator
serves the query from the buffer tier, touching neither the state nor the
adapter. -/
lemma pointsInRange_serve (s : DbState) (id : String) (q : TimeRange)
    (h : memoCovers s id q = true ∨ s.connected = false ∨
      classify (bufRange (s.buffer id)) q = .internal) :
    DbPointRecord.pointsInRange s id q = (bufPointsInRange (s.buffer id) q, s, []) := by
  unfold DbPointRecord.pointsInRange
  by_cases h1 : memoCovers s id q = true
  · simp [h1]
  · by_cases h2 : s.connected = true
    · have hcl : classify (bufRange (s.buffer id)) q = .internal := by
        rcases h with h | h | h
        · exact absurd h h1
        · rw [h2] at h
          cases h
        · exact h
      simp [h1, h2, hcl]
    · have h2f : s.connected = false := by
        cases hcc : s.connected
        · rfl
        · exact absurd hcc h2
      simp [h1, h2f]

/-- Otherwise `pointsInRange` takes the gap-fetch path: the result, the
buffer write-back, the re-memoization and the adapter calls all come from
`runFetch`. -/
lemma pointsInRange_fetch (s : DbState) (id : String) (q : TimeRange)
    (hm : memoCovers s id q = false) (hc : s.connected = true)
    (hni : classify (bufRange (s.buffer id)) q ≠ .internal) :
    DbPointRecord.pointsInRange s id q =
      ((runFetch s.filterType s.opcFilterCodes (s.db id) (s.buffer id) q).1,
       { s with
          buffer := fun i => if i = id then
              addPts (s.buffer i)
                (runFetch s.filterType s.opcFilterCodes (s.db id) (s.buffer id) q).1
            else s.buffer i,
          last_request :=
            if (runFetch s.filterType s.opcFilterCodes (s.db id) (s.buffer id) q).1.isEmpty
            then ⟨id, TimeRange.zero⟩ else ⟨id, q⟩ },
       (runFetch s.filterType s.opcFilterCodes (s.db id) (s.buffer id) q).2.map
         (DbCall.selectRange id)) := by
  unfold DbPointRecord.pointsInRange
  simp [hm, hc, hni]

/-! ### Claim C4 -/

/-- C4: when the memoized request covers the query range for the same
identifier, or the buffered span fully contains the query range (internal
classification), `pointsInRange` is answered entirely from the buffer
tier: no adapter call is made and the state is untouched. -/
theorem C4_memo_or_internal_serves_buffer (s : DbState) (id : String) (q : TimeRange)
    (h : memoCovers s id q = true ∨ classify (bufRange (s.buffer id)) q = .internal) :
    DbPointRecord.pointsInRange s id q = (bufPointsInRange (s.buffer id) q, s, []) := by
  rcases h with h | h
  · exact pointsInRange_serve s id q (Or.inl h)
  · exact pointsInRange_serve s id q (Or.inr (Or.inr h))

/-- A record whose buffer tier caches points at times 100, 150 and 200
for series A. -/
def bufferedState : DbState :=
  { emptyState with
      buffer := fun i => if i = "A" then
          [Point.make 100 1 0 0, Point.make 150 2 0 0, Point.make 200 3 0 0]
        else [] }

/-- Witness for C4: the query [120, 180] is internal to the cached span
[100, 200], so it is served from the buffer with zero adapter calls. -/
theorem C4_memo_or_internal_serves_buffer_witness :
    DbPointRecord.pointsInRange bufferedState "A" ⟨120, 180⟩ =
      ([Point.make 150 2 0 0], bufferedState, []) := by
  rw [C4_memo_or_internal_serves_buffer bufferedState "A" ⟨120, 180⟩
    (Or.inr (by decide))]
  rfl

/-! ### Claim C5 -/

/-- C5: on a left-overlap query (query starts before the buffered span and
ends within it), `pointsInRange` queries the adapter exactly once, for the
gap `[q.start, cachedRange.start]` only (no full-range re-query); the rest
comes from the buffer tier over `[cachedRange.start, q.stop]`, and the
result is the deduplicated gap-first concatenation of the two — the plain
concatenation whenever the filtered gap fetch has no point at the shared
boundary instant. -/
theorem C5_left_overlap_gap_only (s : DbState) (id : String) (q : TimeRange)
    (hc : s.connected = true) (hm : memoCovers s id q = false)
    (hcls : classify (bufRange (s.buffer id)) q = .left)
    (hb : PtSortedLt (s.buffer id)) (hd : PtSortedLt (s.db id)) :
    (DbPointRecord.pointsInRange s id q).2.2 =
      [DbCall.selectRange id ⟨q.start, (bufRange (s.buffer id)).start⟩] ∧
    (DbPointRecord.pointsInRange s id q).1 =
      deDup q
        (opcFiltered s.filterType s.opcFilterCodes
            ((s.db id).filter (fun p =>
              (TimeRange.mk q.start (bufRange (s.buffer id)).start).contains p.time)) ++
          bufPointsInRange (s.buffer id) ⟨(bufRange (s.buffer id)).start, q.stop⟩) [] ∧
    ((∀ p ∈ opcFiltered s.filterType s.opcFilterCodes
          ((s.db id).filter (fun p =>
            (TimeRange.mk q.start (bufRange (s.buffer id)).start).contains p.time)),
        p.time ≠ (bufRange (s.buffer id)).start) →
      (DbPointRecord.pointsInRange s id q).1 =
        opcFiltered s.filterType s.opcFilterCodes
            ((s.db id).filter (fun p =>
              (TimeRange.mk q.start (bufRange (s.buffer id)).start).contains p.time)) ++
          bufPointsInRange (s.buffer id) ⟨(bufRange (s.buffer id)).start, q.stop⟩) := by
  rcases classify_left_facts hcls with ⟨hl1, hl2, hl3⟩
  have hni : classify (bufRange (s.buffer id)) q ≠ .internal := by
    rw [hcls]
    intro hcon
    cases hcon
  have hrf : runFetch s.filterType s.opcFilterCodes (s.db id) (s.buffer id) q =
      (deDup q
        (opcFiltered s.filterType s.opcFilterCodes
            ((s.db id).filter (fun p =>
              (TimeRange.mk q.start (bufRange (s.buffer id)).start).contains p.time)) ++
          bufPointsInRange (s.buffer id) ⟨(bufRange (s.buffer id)).start, q.stop⟩) [],
       [⟨q.start, (bufRange (s.buffer id)).start⟩]) := by
    unfold runFetch
    dsimp only
    rw [hcls]
  rw [pointsInRange_fetch s id q hm hc hni, hrf]
  refine ⟨rfl, rfl, ?_⟩
  intro hno
  dsimp only
  apply deDup_eq_self
  · intro y hy
    rcases List.mem_append.mp hy with hg | hr
    · have := opcFiltered_in_range
        (r := ⟨q.start, (bufRange (s.buffer id)).start⟩)
        (fun p hp => (List.mem_filter.mp hp).2) y hg
      rcases (contains_true_iff _ _).mp this with ⟨ha2, hbnd⟩
      exact (contains_true_iff q y.time).mpr ⟨ha2, le_trans hbnd hl2⟩
    · rcases mem_bufPointsInRange.mp hr with ⟨_, h1, h2⟩
      exact (contains_true_iff q y.time).mpr ⟨le_trans (le_of_lt hl1) h1, h2⟩
  · refine List.pairwise_append.mpr
      ⟨(opcFiltered_sorted (filter_range_sorted hd _)).timesNe,
       (bufPointsInRange_sorted hb _).timesNe, ?_⟩
    intro a ha b hbm
    have hua := opcFiltered_in_range
      (r := ⟨q.start, (bufRange (s.buffer id)).start⟩)
      (fun p hp => (List.mem_filter.mp hp).2) a ha
    have h1 : a.time ≤ (bufRange (s.buffer id)).start :=
      ((contains_true_iff _ _).mp hua).2
    have h2 : a.time < (bufRange (s.buffer id)).start :=
      lt_of_le_of_ne h1 (hno a ha)
    exact ne_of_lt (lt_of_lt_of_le h2 (mem_bufPointsInRange.mp hbm).2.1)
  · intro y _
    simp

/-- The spec scenario state for the left-overlap claim: the buffer tier
caches the span [100, 200] for series A and the backing store holds points
at 50, 100, 150 and 200. -/
def c5State : DbState :=
  { emptyState with
      buffer := fun i => if i = "A" then
          [Point.make 100 1 0 0, Point.make 150 2 0 0, Point.make 200 3 0 0]
        else [],
      db := fun i => if i = "A" then
          [Point.make 50 9 0 0, Point.make 100 1 0 0, Point.make 150 2 0 0,
           Point.make 200 3 0 0]
        else [] }

/-- Witness for C5: querying [50, 150] against the cached span [100, 200]
issues exactly one adapter call, for the gap [50, 100], and returns the
gap points followed by the buffered points of [100, 150]. -/
theorem C5_left_overlap_gap_only_witness :
    (DbPointRecord.pointsInRange c5State "A" ⟨50, 150⟩).2.2 =
      [DbCall.selectRange "A" ⟨50, 100⟩] ∧
    (DbPointRecord.pointsInRange c5State "A" ⟨50, 150⟩).1 =
      [Point.make 50 9 0 0, Point.make 100 1 0 0, Point.make 150 2 0 0] := by
  have h := C5_left_overlap_gap_only c5State "A" ⟨50, 150⟩ rfl (by decide)
    (by decide) (by decide) (by decide)
  constructor
  · exact h.1
  · rw [h.2.1]
    decide

/-! ### Claim C1 -/

/-- C1: `pointsInRange` returns a sequence with pairwise distinct
timestamps all lying inside the closed query range, and an immediate
second call with the same identifier and range returns the same
sequence. -/
theorem C1_pointsInRange_distinct_inrange_idempotent (s : DbState) (id : String)
    (q : TimeRange) (hb : PtSortedLt (s.buffer id)) (hd : PtSortedLt (s.db id))
    (hq : q.start ≤ q.stop) :
    ((DbPointRecord.pointsInRange s id q).1.Pairwise fun a b => a.time ≠ b.time) ∧
    (∀ p ∈ (DbPointRecord.pointsInRange s id q).1,
      q.start ≤ p.time ∧ p.time ≤ q.stop) ∧
    (DbPointRecord.pointsInRange (DbPointRecord.pointsInRange s id q).2.1 id q).1 =
      (DbPointRecord.pointsInRange s id q).1 := by
  by_cases hserve : memoCovers s id q = true ∨ s.connected = false ∨
      classify (bufRange (s.buffer id)) q = .internal
  · rw [pointsInRange_serve s id q hserve]
    refine ⟨(bufPointsInRange_sorted hb q).timesNe, ?_, ?_⟩
    · intro p hp
      exact (mem_bufPointsInRange.mp hp).2
    · dsimp only
      rw [pointsInRange_serve s id q hserve]
  · push_neg at hserve
    obtain ⟨hm1, hc1, hni⟩ := hserve
    have hm : memoCovers s id q = false := by
      cases hmm : memoCovers s id q
      · rfl
      · exact absurd hmm hm1
    have hc : s.connected = true := by
      cases hcc : s.connected
      · exact absurd hcc hc1
      · rfl
    obtain ⟨hRs, hRin, hcov⟩ :=
      @runFetch_props s.filterType s.opcFilterCodes (s.db id) (s.buffer id) q
        hb hd hq hni
    rw [pointsInRange_fetch s id q hm hc hni]
    dsimp only
    refine ⟨hRs.timesNe, ?_, ?_⟩
    · intro p hp
      exact (contains_true_iff q p.time).mp (hRin p hp)
    · by_cases hRe :
        (runFetch s.filterType s.opcFilterCodes (s.db id) (s.buffer id) q).1 = []
      · have hEmpty :
            (runFetch s.filterType s.opcFilterCodes (s.db id) (s.buffer id) q).1.isEmpty
              = true := by
          rw [hRe]
          rfl
        have hbid :
            (if id = id then
                addPts (s.buffer id)
                  (runFetch s.filterType s.opcFilterCodes (s.db id) (s.buffer id) q).1
              else s.buffer id) = s.buffer id := by
          rw [if_pos rfl, hRe]
          rfl
        have hfilter : bufPointsInRange (s.buffer id) q = [] := by
          refine List.filter_eq_nil_iff.mpr ?_
          intro b hbm hcon
          rcases hcov b hbm hcon with ⟨z, hz, _⟩
          rw [hRe] at hz
          simp at hz
        rw [if_pos hEmpty]
        by_cases hz : memoCovers
            { s with
                buffer := fun i => if i = id then
                    addPts (s.buffer i)
                      (runFetch s.filterType s.opcFilterCodes (s.db id) (s.buffer id) q).1
                  else s.buffer i,
                last_request := ⟨id, TimeRange.zero⟩ } id q = true
        · rw [pointsInRange_serve _ id q (Or.inl hz)]
          dsimp only
          rw [hbid, hfilter, hRe]
        · have hmz : memoCovers
              { s with
                  buffer := fun i => if i = id then
                      addPts (s.buffer i)
                        (runFetch s.filterType s.opcFilterCodes (s.db id) (s.buffer id) q).1
                    else s.buffer i,
                  last_request := ⟨id, TimeRange.zero⟩ } id q = false := by
            cases hmm : memoCovers
                { s with
                    buffer := fun i => if i = id then
                        addPts (s.buffer i)
                          (runFetch s.filterType s.opcFilterCodes (s.db id) (s.buffer id) q).1
                      else s.buffer i,
                    last_request := ⟨id, TimeRange.zero⟩ } id q
            · rfl
            · exact absurd hmm hz
          have hniz : classify (bufRange
              (if id = id then
                  addPts (s.buffer id)
                    (runFetch s.filterType s.opcFilterCodes (s.db id) (s.buffer id) q).1
                else s.buffer id)) q ≠ .internal := by
            rw [hbid]
            exact hni
          rw [pointsInRange_fetch _ id q hmz hc hniz]
          dsimp only
          rw [hbid, hRe]
      · have hEmptyNe :
            ¬ ((runFetch s.filterType s.opcFilterCodes (s.db id) (s.buffer id) q).1.isEmpty
              = true) := by
          cases hh : (runFetch s.filterType s.opcFilterCodes (s.db id) (s.buffer id) q).1
          · exact absurd hh hRe
          · intro hcon
            cases hcon
        rw [if_neg hEmptyNe]
        have hm2 : memoCovers
            { s with
                buffer := fun i => if i = id then
                    addPts (s.buffer i)
                      (runFetch s.filterType s.opcFilterCodes (s.db id) (s.buffer id) q).1
                  else s.buffer i,
                last_request := ⟨id, q⟩ } id q = true := by
          unfold memoCovers
          dsimp only
          rw [TimeRange.containsRange]
          have hcq : q.contains q.start = true :=
            (contains_true_iff q q.start).mpr ⟨le_refl _, hq⟩
          have hcq2 : q.contains q.stop = true :=
            (contains_true_iff q q.stop).mpr ⟨hq, le_refl _⟩
          rw [hcq, hcq2]
          simp
        rw [pointsInRange_serve _ id q (Or.inl hm2)]
        dsimp only
        rw [if_pos rfl]
        exact filter_addPts_eq hb hRs hRin hcov

/-- A fresh record over a backing store holding points at 100 and 200 for
series A. -/
def c1State : DbState :=
  { emptyState with
      db := fun i => if i = "A" then
          [Point.make 100 1 0 0, Point.make 200 2 0 0] else [] }

/-- Witness for C1: the spec scenario query [50, 250] on a cold cache. -/
theorem C1_pointsInRange_distinct_inrange_idempotent_witness :
    ((DbPointRecord.pointsInRange c1State "A" ⟨50, 250⟩).1.Pairwise
        fun a b => a.time ≠ b.time) ∧
    (∀ p ∈ (DbPointRecord.pointsInRange c1State "A" ⟨50, 250⟩).1,
      (50 : Int) ≤ p.time ∧ p.time ≤ 250) ∧
    (DbPointRecord.pointsInRange
        (DbPointRecord.pointsInRange c1State "A" ⟨50, 250⟩).2.1 "A" ⟨50, 250⟩).1 =
      (DbPointRecord.pointsInRange c1State "A" ⟨50, 250⟩).1 :=
  C1_pointsInRange_distinct_inrange_idempotent c1State "A" ⟨50, 250⟩
    (by decide) (by decide) (by decide)

/-! ### Claim C2 -/

lemma bufPoint_nil (t : Int) : bufPoint [] t = Point.invalid := rfl

lemma addPts_nil (buf : List Point) : addPts buf [] = buf := rfl

/-- The empty-fetch behavior of `point`: with no buffered and no backing
data and a memoized request that does not cover `(id, t)`, the lookup
queries the adapter for the 12-hour window, finds nothing, returns the
invalid point, and re-memoizes the ZERO sentinel range (not the queried
window). -/
lemma point_empty_fetch (s : DbState) (id : String) (t : Int)
    (hc : s.connected = true) (hbuf : s.buffer id = []) (hdbe : s.db id = [])
    (hmiss : s.last_request.covers id t = false) :
    DbPointRecord.point s id t =
      (Point.invalid,
       { s with
          last_request := ⟨id, TimeRange.zero⟩,
          buffer := fun i => if i = id then addPts (s.buffer i) [] else s.buffer i },
       [DbCall.selectRange id ⟨t - 60 * 60 * 12, t + 60 * 60 * 12⟩]) := by
  unfold DbPointRecord.point
  rw [hbuf]
  dsimp only
  rw [hc, hmiss]
  unfold DbState.selectRange
  rw [hdbe]
  dsimp only [bufPoint_nil]
  simp only [Bool.not_true, Bool.false_eq_true, if_false,
    DbPointRecord.pointsWithOpcFilter]
  rfl

/-- C2 counterexample: with nothing anywhere, `point("A", 500)` returns
invalid, but the empty fetch memoizes the zero sentinel range, which does
not cover (A, 500) — so the immediate second call issues one further
adapter query instead of the zero queries the claim demands. -/
theorem C2_counterexample_second_call_queries :
    (DbPointRecord.point emptyState "A" 500).1 = Point.invalid ∧
    (DbPointRecord.point (DbPointRecord.point emptyState "A" 500).2.1 "A" 500).1 =
      Point.invalid ∧
    (DbPointRecord.point (DbPointRecord.point emptyState "A" 500).2.1 "A" 500).2.2 ≠
      [] := by
  decide

/-- C2 (amended): when no data exists anywhere and the memoized request
does not cover `(id, t)`, `point(id, t)` returns invalid; the empty result
is memoized as the zero sentinel range, which does not cover `(id, t)` for
any `t ≠ 0`, so an immediate identical call performs exactly one further
adapter query (for the same 12-hour window) and again returns invalid. -/
theorem C2_empty_point_refetches (s : DbState) (id : String) (t : Int)
    (hc : s.connected = true) (hbuf : s.buffer id = []) (hdbe : s.db id = [])
    (hmiss : s.last_request.covers id t = false) (ht : t ≠ 0) :
    (DbPointRecord.point s id t).1 = Point.invalid ∧
    (DbPointRecord.point s id t).2.2 =
      [DbCall.selectRange id ⟨t - 60 * 60 * 12, t + 60 * 60 * 12⟩] ∧
    (DbPointRecord.point (DbPointRecord.point s id t).2.1 id t).1 = Point.invalid ∧
    (DbPointRecord.point (DbPointRecord.point s id t).2.1 id t).2.2 =
      [DbCall.selectRange id ⟨t - 60 * 60 * 12, t + 60 * 60 * 12⟩] := by
  have h1 := point_empty_fetch s id t hc hbuf hdbe hmiss
  rw [h1]
  dsimp only
  have hbuf2 : (if id = id then addPts (s.buffer id) [] else s.buffer id) = [] := by
    rw [if_pos rfl, addPts_nil, hbuf]
  have hmiss2 : (Request.mk id TimeRange.zero).covers id t = false := by
    unfold Request.covers TimeRange.contains TimeRange.zero
    dsimp only
    rcases lt_or_gt_of_ne ht with hlt | hgt
    · have : decide ((0 : Int) ≤ t) = false := by
        simp
        omega
      rw [this]
      rfl
    · have : decide (t ≤ (0 : Int)) = false := by
        simp
        omega
      rw [this]
      simp
  have h2 := point_empty_fetch
    { s with
        last_request := ⟨id, TimeRange.zero⟩,
        buffer := fun i => if i = id then addPts (s.buffer i) [] else s.buffer i }
    id t hc hbuf2 hdbe hmiss2
  rw [h2]
  exact ⟨rfl, rfl, rfl, rfl⟩

/-! ### Claim C3 -/

/-- A writable, connected store whose registry already lists series A with
assigned units 5, viewed through a stale listing cache. -/
def c3State : DbState :=
  { emptyState with dbRegistry := [("A", 5)], lastIdRequest := 0 }

/-- C3 evaluation at the failing input: registering series A with units 7
against a registry that has A with assigned units 5 (writable store,
`canAssignUnits` true). The source initializes `existingUnits` to
`RTX_NO_UNITS` and never reassigns it from the registry, so the
remove-and-re-register branch is unreachable: the call issues
`assignUnitsToRecord` and never `removeRecord`. -/
theorem C3_units_conflict_never_removes :
    (DbPointRecord.registerAndGetIdentifierForSeriesWithUnits c3State 100 "A" 7).2.2 =
      [DbCall.idUnitsList, DbCall.assignUnitsToRecord "A" 7] ∧
    DbCall.removeRecord "A" ∉
      (DbPointRecord.registerAndGetIdentifierForSeriesWithUnits c3State 100 "A" 7).2.2 ∧
    (DbPointRecord.registerAndGetIdentifierForSeriesWithUnits
        { c3State with opts := { stdOpts with canAssignUnits := false } }
        100 "A" 7).2.2 = [DbCall.idUnitsList] ∧
    (DbPointRecord.registerAndGetIdentifierForSeriesWithUnits
        { c3State with opts := { stdOpts with canAssignUnits := false } }
        100 "A" 7).1 = false := by
  decide

/-! ### Claim C9 -/

lemma classify_zero_pos {r : TimeRange} (h1 : 1 ≤ r.start) (h2 : r.start ≤ r.stop) :
    classify TimeRange.zero r = .disjoint := by
  unfold classify TimeRange.zero
  dsimp only
  split_ifs with h3 h4 h5
  · exfalso
    omega
  · exfalso
    omega
  · exfalso
    omega
  · exfalso
    omega
  · rfl

/-- The probe window after `k` slides of the iterative search loop. -/
def shiftWindow (r : TimeRange) (shift : Int) (k : Nat) : TimeRange :=
  ⟨r.start + (k : Int) * shift, r.stop + (k : Int) * shift⟩

lemma shiftWindow_zero (r : TimeRange) (shift : Int) : shiftWindow r shift 0 = r := by
  unfold shiftWindow
  simp

lemma shiftWindow_succ_base (r : TimeRange) (shift : Int) (k : Nat) :
    shiftWindow ⟨r.start + shift, r.stop + shift⟩ shift k =
      shiftWindow r shift (k + 1) := by
  unfold shiftWindow
  simp only [TimeRange.mk.injEq]
  push_cast
  constructor <;> ring

/-- Modelled from the spec: the filtered backing-store contents of the
k-th probe window of the iterative search. -/
def probeAt (s : DbState) (id : String) (r : TimeRange) (shift : Int) (k : Nat) :
    List Point :=
  opcFiltered s.filterType s.opcFilterCodes
    ((s.db id).filter (fun p => (shiftWindow r shift k).contains p.time))

/-- Modelled from the spec: the index of the first non-empty probe among
the first `n` windows. -/
def firstHit (s : DbState) (id : String) (r : TimeRange) (shift : Int) (n : Nat) :
    Option Nat :=
  (List.range n).find? (fun k => !(probeAt s id r shift k).isEmpty)

/-- Modelled from the spec: the outcome of the backwards iterative search —
the last (latest) point of the first non-empty probe, or the invalid point
when every probe is empty. -/
def specIterSearchLast (s : DbState) (id : String) (r : TimeRange) (shift : Int)
    (n : Nat) : Point :=
  match firstHit s id r shift n with
  | some k => (probeAt s id r shift k).getLastD Point.invalid
  | none => Point.invalid

/-- Modelled from the spec: the outcome of the forwards iterative search —
the first (earliest) point of the first non-empty probe, or the invalid
point when every probe is empty. -/
def specIterSearchFirst (s : DbState) (id : String) (r : TimeRange) (shift : Int)
    (n : Nat) : Point :=
  match firstHit s id r shift n with
  | some k => (probeAt s id r shift k).headD Point.invalid
  | none => Point.invalid

/-- Modelled from the spec: the number of probes issued — one past the
first non-empty probe, or all `n` when every probe is empty. -/
def specProbeCount (s : DbState) (id : String) (r : TimeRange) (shift : Int)
    (n : Nat) : Nat :=
  match firstHit s id r shift n with
  | some k => k + 1
  | none => n

lemma specProbeCount_le (s : DbState) (id : String) (r : TimeRange) (shift : Int)
    (n : Nat) : specProbeCount s id r shift n ≤ n := by
  unfold specProbeCount
  cases hf : firstHit s id r shift n with
  | none => exact le_refl n
  | some k =>
    have := List.mem_of_find?_eq_some hf
    have hk : k < n := by simpa using this
    exact hk

/-- A probe of `pointsInRange` against an empty buffer with a cleared or
foreign memoized request: the window is fetched from the adapter whole,
the filtered points come back unchanged, and the memo records the window
on a hit or the zero sentinel on a miss. -/
lemma pointsInRange_probe (s : DbState) (id : String) (r : TimeRange)
    (hc : s.connected = true) (hbuf : s.buffer id = [])
    (hdb : PtSortedLt (s.db id))
    (hmemo : s.last_request.id ≠ id ∨ s.last_request.range = TimeRange.zero)
    (h1 : 1 ≤ r.start) (h2 : r.start ≤ r.stop) :
    DbPointRecord.pointsInRange s id r =
      (opcFiltered s.filterType s.opcFilterCodes
         ((s.db id).filter (fun p => r.contains p.time)),
       { s with
          buffer := fun i => if i = id then
              addPts (s.buffer i)
                (opcFiltered s.filterType s.opcFilterCodes
                  ((s.db id).filter (fun p => r.contains p.time)))
            else s.buffer i,
          last_request := if (opcFiltered s.filterType s.opcFilterCodes
              ((s.db id).filter (fun p => r.contains p.time))).isEmpty
            then ⟨id, TimeRange.zero⟩ else ⟨id, r⟩ },
       [DbCall.selectRange id r]) := by
  have hm : memoCovers s id r = false := by
    unfold memoCovers
    rcases hmemo with hne | hzr
    · have hb2 : (s.last_request.id == id) = false :=
        beq_eq_false_iff_ne.mpr hne
      rw [hb2, Bool.and_false]
    · rw [hzr]
      have hcr : TimeRange.zero.containsRange r = false := by
        unfold TimeRange.containsRange TimeRange.contains TimeRange.zero
        dsimp only
        have hf : decide (r.start ≤ (0 : Int)) = false := decide_eq_false (by omega)
        rw [hf, Bool.and_false, Bool.false_and]
      rw [hcr, Bool.false_and]
  have hni : classify (bufRange (s.buffer id)) r ≠ .internal := by
    rw [hbuf, show bufRange ([] : List Point) = TimeRange.zero from rfl,
      classify_zero_pos h1 h2]
    intro hcon
    cases hcon
  have hR : runFetch s.filterType s.opcFilterCodes (s.db id) (s.buffer id) r =
      (opcFiltered s.filterType s.opcFilterCodes
         ((s.db id).filter (fun p => r.contains p.time)), [r]) := by
    rw [hbuf]
    unfold runFetch
    dsimp only
    rw [show bufRange ([] : List Point) = TimeRange.zero from rfl,
      classify_zero_pos h1 h2]
    dsimp only
    congr 1
    apply deDup_eq_self
    · exact fun y hy => opcFiltered_in_range (r := r)
        (fun p hp => (List.mem_filter.mp hp).2) y hy
    · exact (opcFiltered_sorted (filter_range_sorted hdb r)).timesNe
    · intro y _
      simp
  rw [pointsInRange_fetch s id r hm hc hni, hR]
  rfl

/-- The probe loop refines the spec: starting from an empty buffer and a
cleared or foreign memoized request, with every window to the right of the
epoch, the loop issues one `selectRange` per window, stops at the first
non-empty filtered result, and returns exactly that probe (or the empty
list after `n` misses). -/
lemma iterLoop_spec (id : String) (shift : Int) (n : Nat) :
    ∀ (s : DbState) (r : TimeRange),
    s.connected = true → s.buffer id = [] → PtSortedLt (s.db id) →
    (s.last_request.id ≠ id ∨ s.last_request.range = TimeRange.zero) →
    r.start ≤ r.stop →
    (∀ j : Nat, j < n → 1 ≤ r.start + (j : Int) * shift) →
    (iterLoop id shift n s r).1 =
      (match firstHit s id r shift n with
       | some k => probeAt s id r shift k
       | none => []) ∧
    (iterLoop id shift n s r).2.2 =
      (List.range (specProbeCount s id r shift n)).map
        (fun k => DbCall.selectRange id (shiftWindow r shift k)) := by
  induction n with
  | zero =>
    intro s r _ _ _ _ _ _
    exact ⟨rfl, rfl⟩
  | succ n ih =>
    intro s r hc hbuf hdb hmemo hrv hwpos
    have h10 : 1 ≤ r.start := by
      have := hwpos 0 (Nat.succ_pos n)
      simpa using this
    have hstep := pointsInRange_probe s id r hc hbuf hdb hmemo h10 hrv
    have hpz : probeAt s id r shift 0 = opcFiltered s.filterType s.opcFilterCodes
        ((s.db id).filter (fun p => r.contains p.time)) := by
      unfold probeAt
      rw [shiftWindow_zero]
    unfold iterLoop
    rw [hstep]
    dsimp only
    by_cases hP0 : opcFiltered s.filterType s.opcFilterCodes
        ((s.db id).filter (fun p => r.contains p.time)) = []
    · simp only [hP0, List.isEmpty_nil, if_true]
      obtain ⟨ih1, ih2⟩ := ih
        { s with
            buffer := fun i => if i = id then addPts (s.buffer i) [] else s.buffer i,
            last_request := ⟨id, TimeRange.zero⟩ }
        ⟨r.start + shift, r.stop + shift⟩
        hc
        (by
          dsimp only
          rw [if_pos rfl, addPts_nil, hbuf])
        hdb
        (Or.inr rfl)
        (by
          dsimp only
          omega)
        (by
          intro j hj
          have h := hwpos (j + 1) (Nat.succ_lt_succ hj)
          dsimp only
          push_cast at h
          have hr2 : ((j : Int) + 1) * shift = (j : Int) * shift + shift := by ring
          rw [hr2] at h
          linarith)
      have hprobe : ∀ k, probeAt
          { s with
              buffer := fun i => if i = id then addPts (s.buffer i) [] else s.buffer i,
              last_request := ⟨id, TimeRange.zero⟩ }
          id ⟨r.start + shift, r.stop + shift⟩ shift k =
          probeAt s id r shift (k + 1) := by
        intro k
        unfold probeAt
        dsimp only
        rw [shiftWindow_succ_base]
      have hneg0 : ¬ ((fun k => !(probeAt s id r shift k).isEmpty) 0 = true) := by
        dsimp only
        rw [hpz, hP0]
        simp
      have hfh : firstHit s id r shift (n + 1) =
          Option.map Nat.succ (firstHit
            { s with
                buffer := fun i => if i = id then addPts (s.buffer i) [] else s.buffer i,
                last_request := ⟨id, TimeRange.zero⟩ }
            id ⟨r.start + shift, r.stop + shift⟩ shift n) := by
        unfold firstHit
        rw [List.range_succ_eq_map,
          List.find?_cons_of_neg (p := fun k => !(probeAt s id r shift k).isEmpty)
            _ hneg0,
          List.find?_map]
        have hfun2 : ((fun k => !(probeAt s id r shift k).isEmpty) ∘ Nat.succ) =
            (fun k => !(probeAt
              { s with
                  buffer := fun i => if i = id then addPts (s.buffer i) [] else s.buffer i,
                  last_request := ⟨id, TimeRange.zero⟩ }
              id ⟨r.start + shift, r.stop + shift⟩ shift k).isEmpty) := by
          funext k
          simp only [Function.comp]
          rw [hprobe k]
        rw [hfun2]
      have hcount : specProbeCount s id r shift (n + 1) =
          specProbeCount
            { s with
                buffer := fun i => if i = id then addPts (s.buffer i) [] else s.buffer i,
                last_request := ⟨id, TimeRange.zero⟩ }
            id ⟨r.start + shift, r.stop + shift⟩ shift n + 1 := by
        unfold specProbeCount
        rw [hfh]
        cases firstHit
            { s with
                buffer := fun i => if i = id then addPts (s.buffer i) [] else s.buffer i,
                last_request := ⟨id, TimeRange.zero⟩ }
            id ⟨r.start + shift, r.stop + shift⟩ shift n
        · rfl
        · rfl
      constructor
      · rw [ih1, hfh]
        cases hcase : firstHit
            { s with
                buffer := fun i => if i = id then addPts (s.buffer i) [] else s.buffer i,
                last_request := ⟨id, TimeRange.zero⟩ }
            id ⟨r.start + shift, r.stop + shift⟩ shift n with
        | none => rfl
        | some k =>
          simp only [Option.map_some']
          exact hprobe k
      · rw [ih2, hcount]
        have hfun : ((fun k => DbCall.selectRange id (shiftWindow r shift k)) ∘ Nat.succ)
            = (fun k => DbCall.selectRange id
                (shiftWindow ⟨r.start + shift, r.stop + shift⟩ shift k)) := by
          funext k
          simp only [Function.comp]
          rw [shiftWindow_succ_base]
        rw [List.range_succ_eq_map, List.map_cons, List.map_map, hfun,
          shiftWindow_zero, List.singleton_append]
    · have hEmptyNe : ¬ ((opcFiltered s.filterType s.opcFilterCodes
          ((s.db id).filter (fun p => r.contains p.time))).isEmpty = true) := by
        cases hh : opcFiltered s.filterType s.opcFilterCodes
            ((s.db id).filter (fun p => r.contains p.time))
        · exact absurd hh hP0
        · intro hcon
          cases hcon
      rw [if_neg hEmptyNe]
      have hpos0 : ((fun k => !(probeAt s id r shift k).isEmpty) 0) = true := by
        dsimp only
        rw [hpz]
        cases hh : opcFiltered s.filterType s.opcFilterCodes
            ((s.db id).filter (fun p => r.contains p.time))
        · exact absurd hh hP0
        · rfl
      have hfh : firstHit s id r shift (n + 1) = some 0 := by
        unfold firstHit
        rw [List.range_succ_eq_map,
          List.find?_cons_of_pos (p := fun k => !(probeAt s id r shift k).isEmpty)
            _ hpos0]
      have hcnt : specProbeCount s id r shift (n + 1) = 1 := by
        unfold specProbeCount
        rw [hfh]
      constructor
      · rw [hfh]
        dsimp only
        rw [hpz]
      · rw [hcnt, show List.range 1 = [0] from rfl, List.map_cons, List.map_nil,
          shiftWindow_zero]

/-- C9: against an iterative-search adapter, the bound search probes
consecutive stride-wide windows moving away from `t`, issues at most
`iterativeSearchMaxIterations` adapter range queries (one per window,
exactly up to the first non-empty probe), and returns the extreme point of
the first non-empty filtered probe — the last point for the backwards
search, the first point for the forwards search — or the invalid point
when every probe is empty. -/
theorem C9_iterative_bound_search (s : DbState) (id : String) (t : Int)
    (hc : s.connected = true) (hbuf : s.buffer id = [])
    (hdb : PtSortedLt (s.db id)) (hmemo : s.last_request.id ≠ id)
    (hstride : 1 ≤ s.iterativeSearchStride)
    (hneg : 1 ≤ t - (s.iterativeSearchMaxIterations : Int) * s.iterativeSearchStride)
    (hpost : 0 ≤ t) :
    ((DbPointRecord.searchPreviousIteratively s id t).1 =
        specIterSearchLast s id ⟨t - s.iterativeSearchStride, t - 1⟩
          (-s.iterativeSearchStride) s.iterativeSearchMaxIterations ∧
      (DbPointRecord.searchPreviousIteratively s id t).2.2 =
        (List.range (specProbeCount s id ⟨t - s.iterativeSearchStride, t - 1⟩
            (-s.iterativeSearchStride) s.iterativeSearchMaxIterations)).map
          (fun k => DbCall.selectRange id
            (shiftWindow ⟨t - s.iterativeSearchStride, t - 1⟩
              (-s.iterativeSearchStride) k)) ∧
      specProbeCount s id ⟨t - s.iterativeSearchStride, t - 1⟩
          (-s.iterativeSearchStride) s.iterativeSearchMaxIterations ≤
        s.iterativeSearchMaxIterations) ∧
    ((DbPointRecord.searchNextIteratively s id t).1 =
        specIterSearchFirst s id ⟨t + 1, t + s.iterativeSearchStride⟩
          s.iterativeSearchStride s.iterativeSearchMaxIterations ∧
      (DbPointRecord.searchNextIteratively s id t).2.2 =
        (List.range (specProbeCount s id ⟨t + 1, t + s.iterativeSearchStride⟩
            s.iterativeSearchStride s.iterativeSearchMaxIterations)).map
          (fun k => DbCall.selectRange id
            (shiftWindow ⟨t + 1, t + s.iterativeSearchStride⟩
              s.iterativeSearchStride k)) ∧
      specProbeCount s id ⟨t + 1, t + s.iterativeSearchStride⟩
          s.iterativeSearchStride s.iterativeSearchMaxIterations ≤
        s.iterativeSearchMaxIterations) := by
  have hwB : ∀ j : Nat, j < s.iterativeSearchMaxIterations →
      1 ≤ (t - s.iterativeSearchStride) + (j : Int) * (-s.iterativeSearchStride) := by
    intro j hj
    have hj1 : ((j : Int) + 1) ≤ (s.iterativeSearchMaxIterations : Int) := by
      exact_mod_cast Nat.succ_le_of_lt hj
    have hmul : ((j : Int) + 1) * s.iterativeSearchStride ≤
        (s.iterativeSearchMaxIterations : Int) * s.iterativeSearchStride :=
      mul_le_mul_of_nonneg_right hj1 (by omega)
    have hexp : ((j : Int) + 1) * s.iterativeSearchStride =
        (j : Int) * s.iterativeSearchStride + s.iterativeSearchStride := by ring
    rw [hexp] at hmul
    have hgoal : (t - s.iterativeSearchStride) + (j : Int) * (-s.iterativeSearchStride)
        = t - ((j : Int) * s.iterativeSearchStride + s.iterativeSearchStride) := by
      ring
    rw [hgoal]
    linarith
  have hwA : ∀ j : Nat, j < s.iterativeSearchMaxIterations →
      1 ≤ (t + 1) + (j : Int) * s.iterativeSearchStride := by
    intro j _
    have h0 : 0 ≤ (j : Int) * s.iterativeSearchStride :=
      mul_nonneg (Int.natCast_nonneg j) (by omega)
    linarith
  obtain ⟨lB1, lB2⟩ := iterLoop_spec id (-s.iterativeSearchStride)
    s.iterativeSearchMaxIterations s ⟨t - s.iterativeSearchStride, t - 1⟩
    hc hbuf hdb (Or.inl hmemo) (by dsimp only; omega) hwB
  obtain ⟨lA1, lA2⟩ := iterLoop_spec id s.iterativeSearchStride
    s.iterativeSearchMaxIterations s ⟨t + 1, t + s.iterativeSearchStride⟩
    hc hbuf hdb (Or.inl hmemo) (by dsimp only; omega) hwA
  refine ⟨⟨?_, ?_, specProbeCount_le _ _ _ _ _⟩,
          ⟨?_, ?_, specProbeCount_le _ _ _ _ _⟩⟩
  · unfold DbPointRecord.searchPreviousIteratively
    rw [hc]
    simp only [Bool.not_true, Bool.false_eq_true, if_false]
    rw [lB1]
    unfold specIterSearchLast
    cases hF : firstHit s id ⟨t - s.iterativeSearchStride, t - 1⟩
        (-s.iterativeSearchStride) s.iterativeSearchMaxIterations with
    | none => rfl
    | some k => rfl
  · unfold DbPointRecord.searchPreviousIteratively
    rw [hc]
    simp only [Bool.not_true, Bool.false_eq_true, if_false]
    exact lB2
  · unfold DbPointRecord.searchNextIteratively
    rw [hc]
    simp only [Bool.not_true, Bool.false_eq_true, if_false]
    rw [lA1]
    unfold specIterSearchFirst
    cases hF : firstHit s id ⟨t + 1, t + s.iterativeSearchStride⟩
        s.iterativeSearchStride s.iterativeSearchMaxIterations with
    | none => rfl
    | some k => rfl
  · unfold DbPointRecord.searchNextIteratively
    rw [hc]
    simp only [Bool.not_true, Bool.false_eq_true, if_false]
    exact lA2

/-- A cold record over a backing store holding a single point at time
70000 for series A, with the constructor defaults (8 probes of 3-hour
stride). -/
def c9State : DbState :=
  { emptyState with db := fun i => if i = "A" then [Point.make 70000 5 0 0] else [] }

/-- Witness for C9: searching backwards from t = 100000 probes the
windows [89200, 99999], [78400, 89199] and [67600, 78399], stops at the
third (first non-empty) probe, and returns its last point. -/
theorem C9_iterative_bound_search_witness :
    (DbPointRecord.searchPreviousIteratively c9State "A" 100000).1 =
      Point.make 70000 5 0 0 ∧
    (DbPointRecord.searchPreviousIteratively c9State "A" 100000).2.2 =
      [DbCall.selectRange "A" ⟨89200, 99999⟩, DbCall.selectRange "A" ⟨78400, 89199⟩,
       DbCall.selectRange "A" ⟨67600, 78399⟩] := by
  have h := C9_iterative_bound_search c9State "A" 100000 rfl rfl (by decide)
    (by decide) (by decide) (by decide) (by decide)
  constructor
  · rw [h.1.1]
    decide
  · rw [h.1.2.1]
    decide

/-- Witness for the amended C2: concrete run of both lookups on an empty
store — invalid result twice, one adapter window query each time. -/
theorem C2_empty_point_refetches_witness :
    (DbPointRecord.point emptyState "B" 500).1 = Point.invalid ∧
    (DbPointRecord.point emptyState "B" 500).2.2 =
      [DbCall.selectRange "B" ⟨500 - 60 * 60 * 12, 500 + 60 * 60 * 12⟩] ∧
    (DbPointRecord.point (DbPointRecord.point emptyState "B" 500).2.1 "B" 500).1 =
      Point.invalid ∧
    (DbPointRecord.point (DbPointRecord.point emptyState "B" 500).2.1 "B" 500).2.2 =
      [DbCall.selectRange "B" ⟨500 - 60 * 60 * 12, 500 + 60 * 60 * 12⟩] :=
  C2_empty_point_refetches emptyState "B" 500 rfl rfl rfl (by decide) (by decide)
